import Mathlib

/-!
A shallow embedding of `src/snexpr.h` (the snexpr expression engine: a
shunting-yard parser and a recursive tree-walking evaluator) together with
proofs about it.

Modelling conventions, chosen once for the whole file:

* C `float` is modelled by `Flt`: an exact rational together with the three
  special values NaN, +Inf and -Inf.  Rounding and overflow of IEEE floats
  are outside the model; every concrete computation appearing in a theorem
  below stays within small integers, where `float` is exact.
* Reading the `num.nval` union field of a result node whose payload is
  actually a string (`expr_eval` does this for `&&`, `||`, `=` and `,`) is a
  reinterpretation of pointer bytes as a float; its value is modelled by an
  arbitrary function `Ctx.pun : String → Flt`.
* Dereferencing a NULL result pointer is modelled by the distinguished
  evaluator outcome `EvRes.crash`, kept separate from `EvRes.nullr`
  (the evaluator returning NULL).
* Host callback functions return an arbitrary float, modelled by
  `Ctx.F : String → Flt`; an evaluation additionally returns the list of
  callback names invoked, so that short-circuiting is observable.
* Byte strings are modelled as `List Char` (each `Char` standing for one
  byte); reading one byte past the end of the remaining input, which the C
  scanner loops do on NUL-terminated buffers, yields the NUL sentinel
  (`getc` below).
-/

/-- NUL byte. -/
def NUL : Char := Char.ofNat 0

/-- Double-quote byte. -/
def QT : Char := Char.ofNat 34

/-- Single-quote byte. -/
def AP : Char := Char.ofNat 39

/-- Newline byte. -/
def NLC : Char := Char.ofNat 10

/-- Read byte `i` of the remaining input; one byte past the end reads the
NUL terminator of the caller's buffer (see file header). -/
def getc (s : List Char) (i : Nat) : Char := s.getD i NUL

/-- C `float`, modelled as an exact rational plus NaN and the two
infinities. -/
inductive Flt where
  | rat (q : ℚ)
  | nan
  | pinf
  | ninf
deriving DecidableEq, Repr

namespace Flt

/-- `x != 0` is false exactly on the float `0.0` (NaN and infinities are
"non-zero" for C comparisons). -/
def isZero : Flt → Bool
  | rat q => q = 0
  | _ => false

def isNaN : Flt → Bool
  | nan => true
  | _ => false

/-- Float negation. -/
def sneg : Flt → Flt
  | rat q => rat (-q)
  | nan => nan
  | pinf => ninf
  | ninf => pinf

/-- Float addition. -/
def sadd : Flt → Flt → Flt
  | rat a, rat b => rat (a + b)
  | nan, _ => nan
  | _, nan => nan
  | pinf, ninf => nan
  | ninf, pinf => nan
  | pinf, _ => pinf
  | _, pinf => pinf
  | ninf, _ => ninf
  | _, ninf => ninf

/-- Float subtraction. -/
def ssub (a b : Flt) : Flt := sadd a (sneg b)

/-- Float multiplication. -/
def smul : Flt → Flt → Flt
  | rat a, rat b => rat (a * b)
  | nan, _ => nan
  | _, nan => nan
  | pinf, rat b => if b = 0 then nan else if 0 < b then pinf else ninf
  | ninf, rat b => if b = 0 then nan else if 0 < b then ninf else pinf
  | rat a, pinf => if a = 0 then nan else if 0 < a then pinf else ninf
  | rat a, ninf => if a = 0 then nan else if 0 < a then ninf else pinf
  | pinf, pinf => pinf
  | pinf, ninf => ninf
  | ninf, pinf => ninf
  | ninf, ninf => pinf

/-- Float division.  The evaluator rejects a zero right operand before
dividing, so the `rat _ / rat 0` case is unreachable from `expr_eval`;
it is arbitrarily NaN here. -/
def sdiv : Flt → Flt → Flt
  | rat a, rat b => if b = 0 then nan else rat (a / b)
  | nan, _ => nan
  | _, nan => nan
  | rat _, pinf => rat 0
  | rat _, ninf => rat 0
  | pinf, rat b => if 0 ≤ b then pinf else ninf
  | ninf, rat b => if 0 ≤ b then ninf else pinf
  | _, _ => nan

/-- Truncation toward zero of a rational, as an integer. -/
def truncQ (q : ℚ) : Int := q.num.tdiv q.den

/-- `fmodf`: `a - b * trunc(a / b)` for finite operands. -/
def sfmod : Flt → Flt → Flt
  | rat a, rat b => if b = 0 then nan else rat (a - b * (truncQ (a / b) : ℚ))
  | rat a, pinf => rat a
  | rat a, ninf => rat a
  | _, _ => nan

/-- `powf`, modelled on rationals for integer exponents (the only exponents
any claim exercises); a non-integer exponent is mapped to NaN, which is not
bit-faithful to `powf` but is never relied upon. -/
def spow : Flt → Flt → Flt
  | rat a, rat b =>
      if b.den = 1 then
        if 0 ≤ b.num then rat (a ^ b.num.toNat)
        else if a = 0 then pinf
        else rat ((a ^ (-b.num).toNat)⁻¹)
      else nan
  | _, rat b => if b = 0 then rat 1 else nan
  | rat a, pinf => if a = 0 then rat 0 else pinf
  | rat a, ninf => if a = 0 then pinf else rat 0
  | _, _ => nan

/-- Three-way float comparison: `none` when either side is NaN (every C
comparison with NaN is false, `!=` aside). -/
def scmp : Flt → Flt → Option Ordering
  | rat a, rat b => some (compare a b)
  | nan, _ => none
  | _, nan => none
  | pinf, pinf => some .eq
  | ninf, ninf => some .eq
  | pinf, _ => some .gt
  | _, pinf => some .lt
  | ninf, _ => some .lt
  | _, ninf => some .gt

end Flt

/-- `INT_MAX` for the 32-bit `int` of the target. -/
def INT_MAX : Int := 2147483647

/-- `to_int` from the source: 0 for NaN, `INT_MAX * isinf(x)` for the
infinities, C cast `(int)x` (truncation toward zero) otherwise. -/
def to_int : Flt → Int
  | .nan => 0
  | .pinf => INT_MAX
  | .ninf => -INT_MAX
  | .rat q => Flt.truncQ q

/-- C `<<` on `int`, for the shift amounts produced by `to_int`; a negative
right operand (undefined behaviour in C) shifts by zero here. -/
def intShl (a b : Int) : Int := a * 2 ^ b.toNat

/-- C `>>` on `int` (arithmetic shift, the usual implementation-defined
choice); a negative right operand shifts by zero here. -/
def intShr (a b : Int) : Int := Int.fdiv a (2 ^ b.toNat)

/-!  Character classes used by the scanner (`ctype.h` in the C locale). -/

/-- C `isspace`. -/
def isspaceC (c : Char) : Bool := c.toNat = 32 ∨ (9 ≤ c.toNat ∧ c.toNat ≤ 13)

/-- C `isdigit`. -/
def isdigitC (c : Char) : Bool := 48 ≤ c.toNat ∧ c.toNat ≤ 57

/-- `isfirstvarchr` from the source: byte `≥ '@'` other than `'^'` and
`'|'`, or `'$'`. -/
def isfirstvarchr (c : Char) : Bool :=
  (64 ≤ c.toNat ∧ c ≠ '^' ∧ c ≠ '|') ∨ c = '$'

/-- `isvarchr` from the source: `isfirstvarchr` plus `'#'` and digits. -/
def isvarchr (c : Char) : Bool :=
  (64 ≤ c.toNat ∧ c ≠ '^' ∧ c ≠ '|') ∨ c = '$' ∨ c = '#' ∨ isdigitC c

/-- `enum expr_type` from the source (constructor order mirrors the C
declaration order, which indexes the `prec` array). -/
inductive EType where
  | UNKNOWN
  | UNARY_MINUS
  | UNARY_LOGICAL_NOT
  | UNARY_BITWISE_NOT
  | POWER
  | DIVIDE
  | MULTIPLY
  | REMAINDER
  | PLUS
  | MINUS
  | SHL
  | SHR
  | LT
  | LE
  | GT
  | GE
  | EQ
  | NE
  | BITWISE_AND
  | BITWISE_OR
  | BITWISE_XOR
  | LOGICAL_AND
  | LOGICAL_OR
  | ASSIGN
  | COMMA
  | CONSTNUM
  | CONSTSTZ
  | VAR
  | FUNC
deriving DecidableEq, Repr

/-- The `prec[]` array from the source, as a function of the enum. -/
def precOf : EType → Nat
  | .UNKNOWN => 0
  | .UNARY_MINUS => 1
  | .UNARY_LOGICAL_NOT => 1
  | .UNARY_BITWISE_NOT => 1
  | .POWER => 2
  | .DIVIDE => 2
  | .MULTIPLY => 2
  | .REMAINDER => 2
  | .PLUS => 3
  | .MINUS => 3
  | .SHL => 4
  | .SHR => 4
  | .LT => 5
  | .LE => 5
  | .GT => 5
  | .GE => 5
  | .EQ => 5
  | .NE => 5
  | .BITWISE_AND => 6
  | .BITWISE_OR => 7
  | .BITWISE_XOR => 8
  | .LOGICAL_AND => 9
  | .LOGICAL_OR => 10
  | .ASSIGN => 11
  | .COMMA => 12
  | .CONSTNUM => 0
  | .CONSTSTZ => 0
  | .VAR => 0
  | .FUNC => 0

/-- `expr_is_unary` from the source. -/
def expr_is_unary (op : EType) : Bool :=
  op = .UNARY_MINUS ∨ op = .UNARY_LOGICAL_NOT ∨ op = .UNARY_BITWISE_NOT

/-- `expr_is_binary` from the source. -/
def expr_is_binary (op : EType) : Bool :=
  ¬ expr_is_unary op ∧ op ≠ .CONSTNUM ∧ op ≠ .VAR ∧ op ≠ .FUNC ∧ op ≠ .UNKNOWN

/-- `expr_prec` from the source: should the stacked operator `b` be popped
before pushing the incoming operator `a`? -/
def expr_prec (a b : EType) : Bool :=
  let left := expr_is_binary a ∧ a ≠ .ASSIGN ∧ a ≠ .POWER ∧ a ≠ .COMMA
  (left ∧ precOf a ≥ precOf b) ∨ precOf a > precOf b

/-- The `OPS[]` table from the source, in declaration order (the trailing
bare `-`, `!`, `^` entries are the lexer-only unary aliases). -/
def OPS : List (List Char × EType) :=
  [ (['-', 'u'], .UNARY_MINUS)
  , (['!', 'u'], .UNARY_LOGICAL_NOT)
  , (['^', 'u'], .UNARY_BITWISE_NOT)
  , (['*', '*'], .POWER)
  , (['*'], .MULTIPLY)
  , (['/'], .DIVIDE)
  , (['%'], .REMAINDER)
  , (['+'], .PLUS)
  , (['-'], .MINUS)
  , (['<', '<'], .SHL)
  , (['>', '>'], .SHR)
  , (['<'], .LT)
  , (['<', '='], .LE)
  , (['>'], .GT)
  , (['>', '='], .GE)
  , (['=', '='], .EQ)
  , (['!', '='], .NE)
  , (['&'], .BITWISE_AND)
  , (['|'], .BITWISE_OR)
  , (['^'], .BITWISE_XOR)
  , (['&', '&'], .LOGICAL_AND)
  , (['|', '|'], .LOGICAL_OR)
  , (['='], .ASSIGN)
  , ([','], .COMMA)
  , (['-'], .UNARY_MINUS)
  , (['!'], .UNARY_LOGICAL_NOT)
  , (['^'], .UNARY_BITWISE_NOT)
  ]

/-- `expr_op` from the source: first table entry whose lexeme equals the
token and whose unarity matches the filter (`none` models the C argument
`-1`, i.e. no filter).  `EType.UNKNOWN` is returned when nothing matches. -/
def expr_op (s : List Char) (unary : Option Bool) : EType :=
  match OPS.find? (fun p =>
      p.1 == s && match unary with
                  | none => true
                  | some u => expr_is_unary p.2 == u) with
  | some p => p.2
  | none => .UNKNOWN

/-- State of `expr_parse_number`'s scanning loop: the accumulated value,
the `frac` counter and the digit count; `none` models the early
`return NAN`. -/
def parse_number_loop : List Char → ℚ → Nat → Nat → Option (ℚ × Nat × Nat)
  | [], num, frac, digits => some (num, frac, digits)
  | c :: rest, num, frac, digits =>
    if c = '.' ∧ frac = 0 then parse_number_loop rest num 1 digits
    else if isdigitC c then
      parse_number_loop rest (num * 10 + (c.toNat - 48 : Nat))
        (if 0 < frac then frac + 1 else frac) (digits + 1)
    else none

/-- `expr_parse_number` from the source. -/
def expr_parse_number (s : List Char) : Flt :=
  match parse_number_loop s 0 0 0 with
  | none => .nan
  | some (num, frac, digits) =>
      if 0 < digits then .rat (num / 10 ^ (frac - 1)) else .nan

example : expr_parse_number "2.5".toList = .rat (5 / 2) := by
  with_unfolding_all rfl
example : expr_parse_number "007".toList = .rat 7 := by with_unfolding_all rfl
example : expr_parse_number ".".toList = .nan := by with_unfolding_all rfl
example : expr_parse_number "2.3.4".toList = .nan := by with_unfolding_all rfl
example : expr_parse_number "".toList = .nan := by with_unfolding_all rfl

/-- The tokenizer's flag mask (`EXPR_T*` bits plus the `EXPR_UNARY` and
`EXPR_COMMA` side-band bits), one boolean per bit. -/
structure TFlags where
  top : Bool
  topen : Bool
  tclose : Bool
  tnumber : Bool
  tstring : Bool
  tword : Bool
  unary : Bool
  comma : Bool
deriving DecidableEq, Repr

/-- `EXPR_TDEFAULT = EXPR_TOPEN | EXPR_TNUMBER | EXPR_TSTRING | EXPR_TWORD`. -/
def EXPR_TDEFAULT : TFlags :=
  { top := false, topen := true, tclose := false, tnumber := true
  , tstring := true, tword := true, unary := false, comma := false }

/-- `EXPR_TOP | EXPR_TCLOSE` (set after a number, string or `)`). -/
def FLAGS_OPCLOSE : TFlags :=
  { top := true, topen := false, tclose := true, tnumber := false
  , tstring := false, tword := false, unary := false, comma := false }

/-- `EXPR_TOP | EXPR_TOPEN | EXPR_TCLOSE` (set after a word). -/
def FLAGS_WORD : TFlags :=
  { top := true, topen := true, tclose := true, tnumber := false
  , tstring := false, tword := false, unary := false, comma := false }

/-- `EXPR_TNUMBER | EXPR_TSTRING | EXPR_TWORD | EXPR_TOPEN | EXPR_TCLOSE`
(set after `(`). -/
def FLAGS_OPEN : TFlags :=
  { top := false, topen := true, tclose := true, tnumber := true
  , tstring := true, tword := true, unary := false, comma := false }

/-- `EXPR_TNUMBER | EXPR_TSTRING | EXPR_TWORD | EXPR_TOPEN | EXPR_UNARY`
(set after a unary operator). -/
def FLAGS_UNARY : TFlags :=
  { top := false, topen := true, tclose := false, tnumber := true
  , tstring := true, tword := true, unary := true, comma := false }

/-- `EXPR_TNUMBER | EXPR_TSTRING | EXPR_TWORD | EXPR_TOPEN` (set after a
binary operator). -/
def FLAGS_BINARY : TFlags :=
  { top := false, topen := true, tclose := false, tnumber := true
  , tstring := true, tword := true, unary := false, comma := false }

/-- `EXPR_TNUMBER | EXPR_TSTRING | EXPR_TWORD | EXPR_TOPEN | EXPR_COMMA`
(set at a newline in statement position). -/
def FLAGS_NLCOMMA : TFlags :=
  { top := false, topen := true, tclose := false, tnumber := true
  , tstring := true, tword := true, unary := false, comma := true }

/-- The greedy binary-operator scan at the end of `expr_next_token`
(`i`, `c = s[i]`, `found` as in the source; `fuel ≥ s.length + 1 - i`
makes the recursion total). -/
def opScanGo (s : List Char) : Nat → Bool → Nat → Nat × Bool
  | i, found, 0 => (i, found)
  | i, found, fuel + 1 =>
    let c := getc s i
    if ¬ isvarchr c ∧ ¬ isspaceC c ∧ c ≠ '(' ∧ c ≠ ')' ∧ i < s.length then
      if expr_op (s.take (i + 1)) (some false) ≠ .UNKNOWN then
        opScanGo s (i + 1) true fuel
      else if found then (i, found)
      else opScanGo s (i + 1) found fuel
    else (i, found)

/-- `expr_next_token` from the source: returns the signed count of bytes
consumed (negative = lexical error, 0 = exhausted) and the updated flag
mask. -/
def expr_next_token (s : List Char) (f : TFlags) : Int × TFlags :=
  if s.length = 0 then (0, f)
  else
    let c := getc s 0
    if c = '#' then
      (((s.takeWhile (fun ch => ch ≠ NLC)).length : Int), f)
    else if c = NLC then
      let i := (s.takeWhile isspaceC).length
      let f1 := if f.top then
          (if i = s.length ∨ getc s i = ')' then { f with comma := false }
           else FLAGS_NLCOMMA)
        else f
      ((i : Int), f1)
    else if isspaceC c then
      (((s.takeWhile (fun ch => isspaceC ch ∧ ch ≠ NLC)).length : Int), f)
    else if isdigitC c then
      if ¬ f.tnumber then (-1, f)
      else (((s.takeWhile (fun ch => ch = '.' ∨ isdigitC ch)).length : Int),
            FLAGS_OPCLOSE)
    else if c = QT ∨ c = AP then
      if ¬ f.tstring then (-1, f)
      else if s.length = 1 then (-1, f)
      else
        let i := 1 + ((s.drop 1).takeWhile (fun ch => ch ≠ c)).length
        ((i + 1 : Int), FLAGS_OPCLOSE)
    else if isfirstvarchr c then
      if ¬ f.tword then (-2, f)
      else (((s.takeWhile isvarchr).length : Int), FLAGS_WORD)
    else if c = '(' ∨ c = ')' then
      if c = '(' ∧ f.topen then (1, FLAGS_OPEN)
      else if c = ')' ∧ f.tclose then (1, FLAGS_OPCLOSE)
      else (-3, f)
    else
      if ¬ f.top then
        if expr_op [c] (some true) = .UNKNOWN then (-4, f)
        else (1, FLAGS_UNARY)
      else
        let r := opScanGo s 0 false (s.length + 1)
        if ¬ r.2 then (-5, f)
        else ((r.1 : Int), FLAGS_BINARY)

example : expr_next_token "12+3".toList EXPR_TDEFAULT = (2, FLAGS_OPCLOSE) := by
  with_unfolding_all rfl
example : expr_next_token "+3".toList FLAGS_OPCLOSE = (1, FLAGS_BINARY) := by
  with_unfolding_all rfl
example : expr_next_token "**2".toList FLAGS_OPCLOSE = (2, FLAGS_BINARY) := by
  with_unfolding_all rfl
example : expr_next_token "-3".toList EXPR_TDEFAULT = (1, FLAGS_UNARY) := by
  with_unfolding_all rfl
example :
    expr_next_token (QT :: 'a' :: QT :: 'x' :: []) EXPR_TDEFAULT
      = (3, FLAGS_OPCLOSE) := by
  with_unfolding_all rfl
example :
    expr_next_token (QT :: 'a' :: []) EXPR_TDEFAULT = (3, FLAGS_OPCLOSE) := by
  with_unfolding_all rfl
example : expr_next_token (QT :: []) EXPR_TDEFAULT = (-1, EXPR_TDEFAULT) := by
  with_unfolding_all rfl

/-- Opening-brace byte (the parser's call-frame sentinel on the operator
stack). -/
def LBR : Char := Char.ofNat 123

/-- AST / result node (`struct expr`).  The C node keeps a child vector
plus a type tag; here operator nodes carry their children with explicit
arity (`op1`/`op2`), which is the only shape the parser builds.  `var`
nodes are identified by the slot's name (byte-wise identity, exactly how
`expr_var` resolves slots); `fn` nodes keep the registry name and the
argument vector. -/
inductive Expr where
  | num (v : Flt)
  | stz (s : String)
  | var (name : String)
  | fn (name : String) (args : List Expr)
  | op1 (t : EType) (a : Expr)
  | op2 (t : EType) (a b : Expr)

/-- Does the node have type `SNE_OP_VAR`? -/
def isVarE : Expr → Bool
  | .var _ => true
  | _ => false

/-- `expr_bind` from the source, acting on the operand stack (head = top
of stack); `none` models the `-1` error return. -/
def expr_bind (tok : List Char) (es : List Expr) : Option (List Expr) :=
  let op := expr_op tok none
  if op = .UNKNOWN then none
  else if expr_is_unary op then
    match es with
    | a :: rest => some (.op1 op a :: rest)
    | [] => none
  else
    match es with
    | b :: a :: rest =>
      if op = .ASSIGN ∧ ¬ isVarE a then none
      else some (.op2 op a b :: rest)
    | _ => none

/-- `expr_conststr` from the source: strip the quotes of a string token of
claimed length `n` (for an unterminated string `n` is the remaining length
plus one and everything after the opening quote is kept). -/
def expr_conststr (tok : List Char) (n : Nat) : String :=
  if n < 2 then "" else String.mk ((tok.drop 1).take (n - 2))

/-- `EXPR_PAREN_*` state. -/
inductive Paren where
  | allowed
  | expected
  | forbidden
deriving DecidableEq, Repr

/-- `struct expr_arg`: one frame per open function call (operator-stack
depth at the `{` sentinel, operand-stack depth, accumulated arguments in
call order). -/
structure Frame where
  oslen : Nat
  eslen : Nat
  args : List Expr

/-- The parser's loop state: the flag mask, the paren state, the pending
identifier, the operand stack `es`, the operator stack `os` (both with the
head as top of stack), the call frames `as` and the macro table (most
recent first; the C appends and takes the last match, which is the same
lookup). -/
structure PSt where
  flags : TFlags
  paren : Paren
  idtok : Option (List Char)
  es : List Expr
  os : List (List Char)
  frames : List Frame
  macros : List (String × List Expr)

/-- The macro-parameter variable name built by `snprintf(varname,
sizeof(varname) - 1, "$%d", j + 1)`: the buffer bound truncates the name
to two bytes. -/
def paramName (j : Nat) : String := ("$" ++ toString (j + 1)).take 2

/-- The comma chain built from the macro body (elements 1 onward; the
final hole keeps the `expr_constnum(0)` placeholder when the body has no
further elements).  `expr_copy` is a deep copy, which on these pure values
is the identity. -/
def macroBodyChain : List Expr → Expr
  | [] => .num (.rat 0)
  | [b] => b
  | b :: rest => .op2 .COMMA b (macroBodyChain rest)

/-- The parameter-assignment prefix of a macro expansion:
`($1 = a1, ($2 = a2, ... tail))`. -/
def macroParamChain : Nat → List Expr → Expr → Expr
  | _, [], tail => tail
  | j, a :: rest, tail =>
      .op2 .COMMA (.op2 .ASSIGN (.var (paramName j)) a)
        (macroParamChain (j + 1) rest tail)

/-- The pop-and-bind loop run at a `)`: pop operators down to the frame's
recorded depth or to a `(`/`{` sentinel (the C compares the first byte of
the stacked string). -/
def popBindGo (minlen : Nat) : List (List Char) → List Expr →
    Option (List (List Char) × List Expr)
  | [], es => some ([], es)
  | str :: os1, es =>
    if (str :: os1).length > minlen ∧ getc str 0 ≠ '(' ∧ getc str 0 ≠ LBR then
      match expr_bind str es with
      | some es1 => popBindGo minlen os1 es1
      | none => none
    else some (str :: os1, es)

/-- Macro lookup: the C scans the whole vector keeping the **last** match;
with the most-recent-first list used here that is the first match. -/
def macroFind (macros : List (String × List Expr)) (name : String) :
    Option (List Expr) :=
  (macros.find? (fun m => m.1 == name)).map (fun m => m.2)

/-- `vec_len(&as) > 0 ? vec_peek(&as).oslen : 0`. -/
def frameMinlen (frames : List Frame) : Nat :=
  match frames with
  | fr :: _ => fr.oslen
  | [] => 0

/-- `if(vec_len(&es) > arg.eslen) vec_push(&arg.args, vec_pop(&es))`:
the frame's argument list after moving the top operand in, and the
remaining operand stack. -/
def movedArgs (fr : Frame) (es1 : List Expr) : List Expr × List Expr :=
  if es1.length > fr.eslen then
    match es1 with
    | e :: es2 => (fr.args ++ [e], es2)
    | [] => (fr.args, es1)
  else (fr.args, es1)

/-- Closing a call frame: recognise a `$(...)` macro definition, an
existing macro (inline expansion) or a registered function.  `none`
models every `goto cleanup` on this path. -/
def closeCall (funcs : List (List Char)) (name : List Char)
    (os3 : List (List Char)) (frs : List Frame)
    (macros0 : List (String × List Expr)) (args es2 : List Expr) :
    Option (List Expr × List (List Char) × List Frame ×
            List (String × List Expr)) :=
  if name = ['$'] then
    match args with
    | .var vname :: _ =>
        some (.num (.rat 0) :: es2, os3, frs, (vname, args) :: macros0)
    | _ => none
  else
    match macroFind macros0 (String.mk name) with
    | some body =>
        some (macroParamChain 0 args (macroBodyChain (body.drop 1))
                :: es2, os3, frs, macros0)
    | none =>
        if funcs.contains name then
          some (.fn (String.mk name) args :: es2, os3, frs, macros0)
        else none

/-- The `)`-token handling of `expr_create` (close a plain paren or a
call frame). -/
def closeParen (funcs : List (List Char)) (es0 : List Expr)
    (os0 : List (List Char)) (frames0 : List Frame)
    (macros0 : List (String × List Expr)) :
    Option (List Expr × List (List Char) × List Frame ×
            List (String × List Expr)) :=
  match popBindGo (frameMinlen frames0) os0 es0 with
  | none => none
  | some (os1, es1) =>
    match os1 with
    | [] => none
    | str :: os2 =>
      if str = [LBR] then
        match os2, frames0 with
        | name :: os3, fr :: frs =>
          closeCall funcs name os3 frs macros0 (movedArgs fr es1).1
            (movedArgs fr es1).2
        | _, _ => none
      else
        some (es1, os2, frames0, macros0)

/-- The shunting loop run at a binary/unary operator token: keep popping
and binding the stacked operator while `expr_prec` says so; a top-level
`,` inside an open call frame instead moves the top operand into the
frame's argument list and is dropped. -/
def shuntLoop (tok : List Char) (op : EType) :
    List (List Char) → List Expr → List Frame →
    Option (List (List Char) × List Expr × List Frame)
  | [], es, frames => some ([tok], es, frames)
  | s :: os1, es, frames =>
    if tok = [','] ∧ s = [LBR] then
      match es, frames with
      | e :: es1, fr :: frs =>
          some (s :: os1, es1, { fr with args := fr.args ++ [e] } :: frs)
      | _, _ => none
    else
      let type2 := expr_op s none
      if ¬ (type2 ≠ .UNKNOWN ∧ expr_prec op type2) then
        some (tok :: s :: os1, es, frames)
      else
        match expr_bind s es with
        | some es1 => shuntLoop tok op os1 es1 frames
        | none => none

/-- The pending-identifier resolution at the start of a parser-loop
iteration: before a `(` the name must be `$`, a known macro or a
registered function (and is pushed onto the operator stack, expecting the
call paren); otherwise the identifier becomes a variable reference on the
operand stack and a following `(` is forbidden. -/
def resolveId (funcs : List (List Char)) (st : PSt) (tok : List Char)
    (n : Nat) : Option (List Expr × List (List Char) × Paren) :=
  match st.idtok with
  | none => some (st.es, st.os, st.paren)
  | some id =>
    if n = 1 ∧ getc tok 0 = '(' then
      if (id = ['$']) ∨ st.macros.any (fun m => m.1 == String.mk id)
          ∨ funcs.contains id then
        some (st.es, id :: st.os, .expected)
      else none
    else
      some (.var (String.mk id) :: st.es, st.os, .forbidden)

/-- The token dispatch of a parser-loop iteration (after the comment
skip, unary rewrite, newline-as-comma rewrite and whitespace skip):
parens, close-paren handling, literals, operators and identifiers.
`none` models every `goto cleanup`. -/
def stepCore (funcs : List (List Char)) (tok : List Char) (n : Nat)
    (f2 : TFlags) (st : PSt) : Option PSt :=
  match resolveId funcs st tok n with
  | none => none
  | some (es1, os1, paren1) =>
    if n = 1 ∧ getc tok 0 = '(' then
      match paren1 with
      | .expected =>
          let os2 := [LBR] :: os1
          some { flags := f2, paren := .allowed, idtok := none
               , es := es1, os := os2
               , frames := ⟨os2.length, es1.length, []⟩ :: st.frames
               , macros := st.macros }
      | .allowed =>
          some { flags := f2, paren := .allowed, idtok := none
               , es := es1, os := ['('] :: os1
               , frames := st.frames, macros := st.macros }
      | .forbidden => none
    else if paren1 = .expected then none
    else if n = 1 ∧ getc tok 0 = ')' then
      match closeParen funcs es1 os1 st.frames st.macros with
      | none => none
      | some (es2, os2, frs2, mac2) =>
          some { flags := f2, paren := .forbidden, idtok := none
               , es := es2, os := os2, frames := frs2, macros := mac2 }
    else if ¬ (expr_parse_number tok).isNaN then
      some { flags := f2, paren := .forbidden, idtok := none
           , es := .num (expr_parse_number tok) :: es1, os := os1
           , frames := st.frames, macros := st.macros }
    else if getc tok 0 = QT ∨ getc tok 0 = AP then
      some { flags := f2, paren := .forbidden, idtok := none
           , es := .stz (expr_conststr tok n) :: es1, os := os1
           , frames := st.frames, macros := st.macros }
    else if expr_op tok none ≠ .UNKNOWN then
      match shuntLoop tok (expr_op tok none) os1 es1 st.frames with
      | none => none
      | some (os2, es2, frs2) =>
          some { flags := f2, paren := .allowed, idtok := none
               , es := es2, os := os2, frames := frs2
               , macros := st.macros }
    else
      if 0 < n ∧ ¬ isdigitC (getc tok 0) then
        some { flags := f2, paren := .allowed, idtok := some tok
             , es := es1, os := os1, frames := st.frames
             , macros := st.macros }
      else none

/-- One parser-loop iteration after a token of signed length `n0` has
been scanned: the comment skip, the unary-operator rewrite, the
newline-as-comma rewrite, the whitespace skip, then `stepCore`.  `none`
models every `goto cleanup`. -/
def stepTok (funcs : List (List Char)) (tok0 : List Char) (n0 : Nat)
    (f1 : TFlags) (st : PSt) : Option PSt :=
  if getc tok0 0 = '#' then some { st with flags := f1 }
  else
    let uo : Option (List Char × Nat) :=
      if f1.unary ∧ n0 = 1 then
        if getc tok0 0 = '-' then some (['-', 'u'], 2)
        else if getc tok0 0 = '^' then some (['^', 'u'], 2)
        else if getc tok0 0 = '!' then some (['!', 'u'], 2)
        else none
      else some (tok0, n0)
    match uo with
    | none => none
    | some (tok1, n1) =>
      let fcm := getc tok1 0 = NLC ∧ f1.comma
      let f2 := if fcm then { f1 with comma := false } else f1
      let tok := if fcm then [','] else tok1
      let n := if fcm then 1 else n1
      if isspaceC (getc tok 0) then some { st with flags := f2 }
      else stepCore funcs tok n f2 st

/-- The parser's main loop; each consumed token has positive length, so
`fuel = length + 1` never runs out on the paths the theorems use.  As
noted in the file header, a token claiming more bytes than remain (the
unterminated-string case, where the C `size_t` length underflows and the
scan runs off the buffer) leaves the model with an exhausted input. -/
def parseLoop (funcs : List (List Char)) : Nat → List Char → PSt → Option PSt
  | 0, _, _ => none
  | fuel + 1, s, st =>
    let r := expr_next_token s st.flags
    if r.1 = 0 then some st
    else if r.1 < 0 then none
    else
      let n := r.1.toNat
      match stepTok funcs (s.take n) n r.2 st with
      | none => none
      | some st1 => parseLoop funcs fuel (s.drop n) st1

/-- The post-loop unwinding of the operator stack: a leftover `(` or `)`
is an error, everything else is bound. -/
def finishBind : List (List Char) → List Expr → Option (List Expr)
  | [], es => some es
  | rest :: os1, es =>
    if rest.length = 1 ∧ (getc rest 0 = '(' ∨ getc rest 0 = ')') then none
    else match expr_bind rest es with
      | some es1 => finishBind os1 es1
      | none => none

/-- The initial parser state. -/
def initPSt : PSt :=
  { flags := EXPR_TDEFAULT, paren := .allowed, idtok := none
  , es := [], os := [], frames := [], macros := [] }

/-- `expr_create` from the source, for a host function registry given by
name (`funcs`); variable slots are created on demand and identified by
name, which is how `expr_var` resolves them.  `none` models a NULL
return; on success the top of the operand stack is the AST (an empty
stack gives the zero-initialised `SNE_OP_CONSTNUM` node). -/
def expr_create (funcs : List (List Char)) (s : List Char) : Option Expr :=
  match parseLoop funcs (s.length + 1) s initPSt with
  | none => none
  | some st =>
    let es1 := match st.idtok with
      | some id => Expr.var (String.mk id) :: st.es
      | none => st.es
    match finishBind st.os es1 with
    | none => none
    | some es2 =>
      match es2 with
      | [] => some (.num (.rat 0))
      | e :: _ => some e

example : expr_create [] "1+2".toList
    = some (.op2 .PLUS (.num (expr_parse_number ['1']))
        (.num (expr_parse_number ['2']))) := by
  with_unfolding_all rfl
example : expr_create [] "".toList = some (.num (.rat 0)) := by
  with_unfolding_all rfl
example : expr_create [] "1=2".toList = none := by with_unfolding_all rfl
example : expr_create [] "1,2,3".toList
    = some (.op2 .COMMA (.num (expr_parse_number ['1']))
        (.op2 .COMMA (.num (expr_parse_number ['2']))
          (.num (expr_parse_number ['3'])))) := by
  with_unfolding_all rfl

/-- A result node of the evaluator: `expr_convert_num` /
`expr_convert_stz` always produce a `SNE_OP_CONSTNUM` or `SNE_OP_CONSTSTZ`
payload. -/
inductive Val where
  | num (x : Flt)
  | str (s : String)

/-- Outcome of `expr_eval`: a result node, the NULL return, or a crash
(NULL dereference / out-of-bounds child access, i.e. undefined
behaviour). -/
inductive EvRes where
  | ok (v : Val)
  | nullr
  | crash

/-- The variable table, by name; a slot never written reads as the
zero-initialised `0.0` (`calloc` in `expr_var`). -/
abbrev Env := List (String × Flt)

def envGet (env : Env) (n : String) : Flt :=
  match env.find? (fun p => p.1 == n) with
  | some p => p.2
  | none => .rat 0

def envSet (env : Env) (n : String) (x : Flt) : Env := (n, x) :: env

/-- Host context for evaluation: `F` gives the float returned by a
registered callback, `pun` gives the float obtained when `expr_eval`
reads the `num.nval` union field of a string result (a reinterpretation
of the `sval` pointer bytes; see the file header). -/
structure Ctx where
  F : String → Flt
  pun : String → Flt

/-- Reading `->param.num.nval` from a result node. -/
def valNum (cx : Ctx) : Val → Flt
  | .num x => x
  | .str s => cx.pun s

/-- `strcmp` on byte strings: sign of the first differing byte pair. -/
def strcmpC : List Char → List Char → Int
  | [], [] => 0
  | [], _ :: _ => -1
  | _ :: _, [] => 1
  | a :: as1, b :: bs1 =>
    if a.toNat < b.toNat then -1
    else if b.toNat < a.toNat then 1
    else strcmpC as1 bs1

/-- Digit run to a natural number. -/
def digitsToNat (l : List Char) : Nat :=
  l.foldl (fun a c => a * 10 + (c.toNat - 48)) 0

/-- Drop trailing `'0'` bytes. -/
def stripZeroTail (l : List Char) : List Char :=
  (l.reverse.dropWhile (fun c => c = '0')).reverse

/-- `asprintf("%g", x)`.  Faithful to C for NaN, infinities and integral
values of magnitude below `10^6` — the only values any theorem below
formats.  Other finite values are rendered as a sign, integer part and up
to six fractional digits (`%g` proper rounds to six significant digits
and may switch to scientific notation; no claim depends on those). -/
def fmtG (x : Flt) : String :=
  match x with
  | .nan => "nan"
  | .pinf => "inf"
  | .ninf => "-inf"
  | .rat q =>
    if q.den = 1 ∧ q.num.natAbs < 1000000 then
      (if q.num < 0 then "-" else "") ++ toString q.num.natAbs
    else
      let sign := if q.num < 0 then "-" else ""
      let aq : ℚ := |q|
      let ip : Nat := (⌊aq⌋).toNat
      let fr : Nat := (⌊(aq - (ip : ℚ)) * 1000000⌋).toNat
      let frs := toString fr
      let frl := List.replicate (6 - frs.length) '0' ++ frs.toList
      match stripZeroTail frl with
      | [] => sign ++ toString ip
      | l => sign ++ toString ip ++ "." ++ String.mk l

/-- `atof` (the decimal subset of `strtod`): optional whitespace and sign,
digits with an optional fraction, an optional decimal exponent; no valid
prefix gives `0.0`.  (The `inf`/`nan` word forms of `strtod` are not
modelled; no claim exercises them.) -/
def atofS (s : String) : Flt :=
  let l0 := (s.toList).dropWhile isspaceC
  let sg : ℚ := match l0 with
    | '-' :: _ => -1
    | _ => 1
  let l1 := match l0 with
    | '-' :: rest => rest
    | '+' :: rest => rest
    | _ => l0
  let ip := l1.takeWhile isdigitC
  let l2 := l1.drop ip.length
  let fp := match l2 with
    | '.' :: rest => rest.takeWhile isdigitC
    | _ => []
  let l3 := match l2 with
    | '.' :: rest => rest.dropWhile isdigitC
    | _ => l2
  if ip = [] ∧ fp = [] then .rat 0
  else
    let base : ℚ := (digitsToNat ip : ℚ) + (digitsToNat fp : ℚ) / 10 ^ fp.length
    let e : Int := match l3 with
      | c :: rest =>
        if c = 'e' ∨ c = 'E' then
          match rest with
          | '-' :: ds => -((digitsToNat (ds.takeWhile isdigitC) : Int))
          | '+' :: ds => (digitsToNat (ds.takeWhile isdigitC) : Int)
          | ds => (digitsToNat (ds.takeWhile isdigitC) : Int)
        else 0
      | [] => 0
    .rat (sg * base * 10 ^ e)

/-- Evaluation outcome triple: result, variable table, names of invoked
callbacks (in order). -/
abbrev Triple := EvRes × Env × List String

/-- Sequencing of the `expr_eval_check_val(_, SNE_OP_CONSTNUM)` pattern
for a unary operator: NULL propagates, a string operand is a type
mismatch (`goto error`). -/
def un_num (ra : Triple) (k : Flt → EvRes) : Triple :=
  match ra with
  | (.ok (.num x), e1, t1) => (k x, e1, t1)
  | (.ok (.str _), e1, t1) => (.nullr, e1, t1)
  | (.nullr, e1, t1) => (.nullr, e1, t1)
  | (.crash, e1, t1) => (.crash, e1, t1)

/-- Sequencing of the checked two-operand pattern (`expr_eval_check_val`
on both sides): the left operand is checked before the right one is
evaluated. -/
def bin_num (ra : Triple) (fb : Env → Triple) (k : Flt → Flt → EvRes) :
    Triple :=
  match ra with
  | (.ok (.num x), e1, t1) =>
    (match fb e1 with
     | (.ok (.num y), e2, t2) => (k x y, e2, t1 ++ t2)
     | (.ok (.str _), e2, t2) => (.nullr, e2, t1 ++ t2)
     | (.nullr, e2, t2) => (.nullr, e2, t1 ++ t2)
     | (.crash, e2, t2) => (.crash, e2, t1 ++ t2))
  | (.ok (.str _), e1, t1) => (.nullr, e1, t1)
  | (.nullr, e1, t1) => (.nullr, e1, t1)
  | (.crash, e1, t1) => (.crash, e1, t1)

/-- The `expr_eval_cmp` macro: NULL checks only; a string left operand
compares both sides as strings (`%g`-formatting a numeric right), a
numeric left compares numerically (`atof`-parsing a string right).
`cS` turns the `strcmp` sign into the operator's verdict, `cN` the float
ordering (`none` = a NaN side). -/
def bin_cmp (ra : Triple) (fb : Env → Triple)
    (cS : Int → Bool) (cN : Option Ordering → Bool) : Triple :=
  match ra with
  | (.ok v0, e1, t1) =>
    (match fb e1 with
     | (.ok v1, e2, t2) =>
        (match v0 with
         | .str s0 =>
            let s1 := match v1 with
              | .num y => fmtG y
              | .str sv => sv
            (.ok (.num (if cS (strcmpC s0.toList s1.toList)
                        then .rat 1 else .rat 0)), e2, t1 ++ t2)
         | .num x =>
            let y := match v1 with
              | .num yv => yv
              | .str sv => atofS sv
            (.ok (.num (if cN (Flt.scmp x y) then .rat 1 else .rat 0)),
             e2, t1 ++ t2))
     | (.nullr, e2, t2) => (.nullr, e2, t1 ++ t2)
     | (.crash, e2, t2) => (.crash, e2, t1 ++ t2))
  | (.nullr, e1, t1) => (.nullr, e1, t1)
  | (.crash, e1, t1) => (.crash, e1, t1)

/-- The `SNE_OP_PLUS` case: NULL checks only; a string left operand
concatenates (a numeric right is `%g`-formatted), a numeric left adds (a
string right is `atof`-parsed). -/
def bin_plus (ra : Triple) (fb : Env → Triple) : Triple :=
  match ra with
  | (.ok v0, e1, t1) =>
    (match fb e1 with
     | (.ok v1, e2, t2) =>
        (match v0 with
         | .str s0 =>
            (match v1 with
             | .num y => (.ok (.str (s0 ++ fmtG y)), e2, t1 ++ t2)
             | .str s1 => (.ok (.str (s0 ++ s1)), e2, t1 ++ t2))
         | .num x =>
            (match v1 with
             | .str s1 => (.ok (.num (Flt.sadd x (atofS s1))), e2, t1 ++ t2)
             | .num y => (.ok (.num (Flt.sadd x y)), e2, t1 ++ t2)))
     | (.nullr, e2, t2) => (.nullr, e2, t1 ++ t2)
     | (.crash, e2, t2) => (.crash, e2, t1 ++ t2))
  | (.nullr, e1, t1) => (.nullr, e1, t1)
  | (.crash, e1, t1) => (.crash, e1, t1)

/-- `expr_eval` from the source.  Each `case` of the C switch appears
once; `&&`, `||`, `=` and `,` read `num.nval` from their (unchecked)
operand results, modelled with `valNum`/`crash` as described in the file
header.  A node whose type tag does not fit its payload (never produced
by the parser) is mapped to `crash`, except type `UNKNOWN` which the C
`default` case maps to NaN. -/
def expr_eval (cx : Ctx) : Expr → Env → Triple
  | .num v, env => (.ok (.num v), env, [])
  | .stz s, env => (.ok (.str s), env, [])
  | .var n, env => (.ok (.num (envGet env n)), env, [])
  | .fn name _, env => (.ok (.num (cx.F name)), env, [name])
  | .op1 t a, env =>
    if t = .UNARY_MINUS then
      un_num (expr_eval cx a env) (fun x => .ok (.num (Flt.sneg x)))
    else if t = .UNARY_LOGICAL_NOT then
      un_num (expr_eval cx a env)
        (fun x => .ok (.num (if x = .rat 0 then .rat 1 else .rat 0)))
    else if t = .UNARY_BITWISE_NOT then
      un_num (expr_eval cx a env)
        (fun x => .ok (.num (.rat ((~~~(to_int x) : Int) : ℚ))))
    else if t = .UNKNOWN then (.ok (.num .nan), env, [])
    else (.crash, env, [])
  | .op2 t a b, env =>
    match t with
    | .POWER => bin_num (expr_eval cx a env) (fun e1 => expr_eval cx b e1)
        (fun x y => .ok (.num (Flt.spow x y)))
    | .MULTIPLY => bin_num (expr_eval cx a env) (fun e1 => expr_eval cx b e1)
        (fun x y => .ok (.num (Flt.smul x y)))
    | .DIVIDE => bin_num (expr_eval cx a env) (fun e1 => expr_eval cx b e1)
        (fun x y => if y = .rat 0 then .nullr else .ok (.num (Flt.sdiv x y)))
    | .REMAINDER => bin_num (expr_eval cx a env) (fun e1 => expr_eval cx b e1)
        (fun x y => .ok (.num (Flt.sfmod x y)))
    | .PLUS => bin_plus (expr_eval cx a env) (fun e1 => expr_eval cx b e1)
    | .MINUS => bin_num (expr_eval cx a env) (fun e1 => expr_eval cx b e1)
        (fun x y => .ok (.num (Flt.ssub x y)))
    | .SHL => bin_num (expr_eval cx a env) (fun e1 => expr_eval cx b e1)
        (fun x y => .ok (.num (.rat ((intShl (to_int x) (to_int y) : Int) : ℚ))))
    | .SHR => bin_num (expr_eval cx a env) (fun e1 => expr_eval cx b e1)
        (fun x y => .ok (.num (.rat ((intShr (to_int x) (to_int y) : Int) : ℚ))))
    | .LT => bin_cmp (expr_eval cx a env) (fun e1 => expr_eval cx b e1)
        (fun i => i < 0) (fun o => o = some .lt)
    | .LE => bin_cmp (expr_eval cx a env) (fun e1 => expr_eval cx b e1)
        (fun i => i ≤ 0) (fun o => o = some .lt ∨ o = some .eq)
    | .GT => bin_cmp (expr_eval cx a env) (fun e1 => expr_eval cx b e1)
        (fun i => 0 < i) (fun o => o = some .gt)
    | .GE => bin_cmp (expr_eval cx a env) (fun e1 => expr_eval cx b e1)
        (fun i => 0 ≤ i) (fun o => o = some .gt ∨ o = some .eq)
    | .EQ => bin_cmp (expr_eval cx a env) (fun e1 => expr_eval cx b e1)
        (fun i => i = 0) (fun o => o = some .eq)
    | .NE => bin_cmp (expr_eval cx a env) (fun e1 => expr_eval cx b e1)
        (fun i => i ≠ 0) (fun o => o ≠ some .eq)
    | .BITWISE_AND => bin_num (expr_eval cx a env) (fun e1 => expr_eval cx b e1)
        (fun x y => .ok (.num (.rat ((Int.land (to_int x) (to_int y) : Int) : ℚ))))
    | .BITWISE_OR => bin_num (expr_eval cx a env) (fun e1 => expr_eval cx b e1)
        (fun x y => .ok (.num (.rat ((Int.lor (to_int x) (to_int y) : Int) : ℚ))))
    | .BITWISE_XOR => bin_num (expr_eval cx a env) (fun e1 => expr_eval cx b e1)
        (fun x y => .ok (.num (.rat ((Int.xor (to_int x) (to_int y) : Int) : ℚ))))
    | .LOGICAL_AND =>
      (match expr_eval cx a env with
       | (.ok v0, e1, t1) =>
         if ¬ (valNum cx v0).isZero then
           match expr_eval cx b e1 with
           | (.ok v1, e2, t2) =>
             if ¬ (valNum cx v1).isZero then
               (.ok (.num (valNum cx v1)), e2, t1 ++ t2)
             else (.ok (.num (.rat 0)), e2, t1 ++ t2)
           | (.nullr, e2, t2) => (.crash, e2, t1 ++ t2)
           | (.crash, e2, t2) => (.crash, e2, t1 ++ t2)
         else (.ok (.num (.rat 0)), e1, t1)
       | (.nullr, e1, t1) => (.crash, e1, t1)
       | (.crash, e1, t1) => (.crash, e1, t1))
    | .LOGICAL_OR =>
      (match expr_eval cx a env with
       | (.ok v0, e1, t1) =>
         if ¬ (valNum cx v0).isZero ∧ ¬ (valNum cx v0).isNaN then
           (.ok (.num (valNum cx v0)), e1, t1)
         else
           match expr_eval cx b e1 with
           | (.ok v1, e2, t2) =>
             if ¬ (valNum cx v1).isZero then
               (.ok (.num (valNum cx v1)), e2, t1 ++ t2)
             else (.ok (.num (.rat 0)), e2, t1 ++ t2)
           | (.nullr, e2, t2) => (.crash, e2, t1 ++ t2)
           | (.crash, e2, t2) => (.crash, e2, t1 ++ t2)
       | (.nullr, e1, t1) => (.crash, e1, t1)
       | (.crash, e1, t1) => (.crash, e1, t1))
    | .ASSIGN =>
      (match expr_eval cx b env with
       | (.ok v1, e1, t1) =>
         let n := valNum cx v1
         (match a with
          | .var nm => (.ok (.num n), envSet e1 nm n, t1)
          | _ => (.ok (.num n), e1, t1))
       | (.nullr, e1, t1) => (.crash, e1, t1)
       | (.crash, e1, t1) => (.crash, e1, t1))
    | .COMMA =>
      (match expr_eval cx a env with
       | (.crash, e1, t1) => (.crash, e1, t1)
       | (_, e1, t1) =>
         match expr_eval cx b e1 with
         | (.ok v1, e2, t2) => (.ok (.num (valNum cx v1)), e2, t1 ++ t2)
         | (.nullr, e2, t2) => (.crash, e2, t1 ++ t2)
         | (.crash, e2, t2) => (.crash, e2, t1 ++ t2))
    | .UNARY_MINUS =>
      un_num (expr_eval cx a env) (fun x => .ok (.num (Flt.sneg x)))
    | .UNARY_LOGICAL_NOT =>
      un_num (expr_eval cx a env)
        (fun x => .ok (.num (if x = .rat 0 then .rat 1 else .rat 0)))
    | .UNARY_BITWISE_NOT =>
      un_num (expr_eval cx a env)
        (fun x => .ok (.num (.rat ((~~~(to_int x) : Int) : ℚ))))
    | .UNKNOWN => (.ok (.num .nan), env, [])
    | _ => (.crash, env, [])

/-- Parse with the given registry, then evaluate once in an empty
variable table. -/
def parseEval (cx : Ctx) (funcs : List (List Char)) (s : String) :
    Option Triple :=
  (expr_create funcs s.toList).map (fun e => expr_eval cx e [])

/-!  Helper lemmas about the evaluator's sequencing combinators. -/

/-- A concrete context for closed counterexamples/witnesses. -/
def cx0 : Ctx := { F := fun _ => .rat 0, pun := fun _ => .rat 0 }

/-- A node whose evaluation fails (division by zero): `1/0`. -/
def divZeroE : Expr := .op2 .DIVIDE (.num (.rat 1)) (.num (.rat 0))

theorem un_num_null {ra : Triple} (k : Flt → EvRes) (h : ra.1 = .nullr) :
    (un_num ra k).1 = .nullr := by
  obtain ⟨r, e, t⟩ := ra
  simp only at h
  subst h
  rfl

theorem bin_num_null_left {ra : Triple} (fb : Env → Triple)
    (k : Flt → Flt → EvRes) (h : ra.1 = .nullr) :
    (bin_num ra fb k).1 = .nullr := by
  obtain ⟨r, e, t⟩ := ra
  simp only at h
  subst h
  rfl

theorem bin_num_null_right {ra : Triple} {v : Val} {e1 : Env}
    {t1 : List String} (fb : Env → Triple) (k : Flt → Flt → EvRes)
    (h : ra = (.ok v, e1, t1)) (h2 : (fb e1).1 = .nullr) :
    (bin_num ra fb k).1 = .nullr := by
  subst h
  rcases hfb : fb e1 with ⟨r2, e2, t2⟩
  rw [hfb] at h2
  simp only at h2
  subst h2
  cases v <;> simp [bin_num, hfb]

theorem bin_cmp_null_left {ra : Triple} (fb : Env → Triple)
    (cS : Int → Bool) (cN : Option Ordering → Bool) (h : ra.1 = .nullr) :
    (bin_cmp ra fb cS cN).1 = .nullr := by
  obtain ⟨r, e, t⟩ := ra
  simp only at h
  subst h
  rfl

theorem bin_cmp_null_right {ra : Triple} {v : Val} {e1 : Env}
    {t1 : List String} (fb : Env → Triple) (cS : Int → Bool)
    (cN : Option Ordering → Bool)
    (h : ra = (.ok v, e1, t1)) (h2 : (fb e1).1 = .nullr) :
    (bin_cmp ra fb cS cN).1 = .nullr := by
  subst h
  rcases hfb : fb e1 with ⟨r2, e2, t2⟩
  rw [hfb] at h2
  simp only at h2
  subst h2
  cases v <;> simp [bin_cmp, hfb]

theorem bin_plus_null_left {ra : Triple} (fb : Env → Triple)
    (h : ra.1 = .nullr) : (bin_plus ra fb).1 = .nullr := by
  obtain ⟨r, e, t⟩ := ra
  simp only at h
  subst h
  rfl

theorem bin_plus_null_right {ra : Triple} {v : Val} {e1 : Env}
    {t1 : List String} (fb : Env → Triple)
    (h : ra = (.ok v, e1, t1)) (h2 : (fb e1).1 = .nullr) :
    (bin_plus ra fb).1 = .nullr := by
  subst h
  rcases hfb : fb e1 with ⟨r2, e2, t2⟩
  rw [hfb] at h2
  simp only at h2
  subst h2
  cases v <;> simp [bin_plus, hfb]

/-- C1: the claim says evaluating the parsed `s="4",s=s+"5"` yields a
string-kind result node with value "45" (the repository's own test
`tsnexpr.c` asserts exactly that).  The code instead always produces a
`SNE_OP_CONSTNUM` result: `=` and `,` read `num.nval` from the string
result and wrap it with `expr_convert_num`, so the outcome is the numeric
reinterpretation of the string "4" plus 5 — a number node, never the
string "45" — whatever value that reinterpretation has. -/
theorem C1_code_bug_eval (cx : Ctx) :
    parseEval cx [] "s=\"4\",s=s+\"5\""
      = some (.ok (.num (Flt.sadd (cx.pun "4") (.rat 5))),
          [("s", Flt.sadd (cx.pun "4") (Flt.rat 5)), ("s", cx.pun "4")],
          []) := by
  with_unfolding_all rfl

/-- C2 counterexample: the left child of a `,` node fails to evaluate
(`1/0` yields NULL), yet the comma node does not fail — it returns the
result node 2 (the `SNE_OP_COMMA` case never checks `rv0`). -/
theorem C2_counterexample :
    (expr_eval cx0 divZeroE []).1 = .nullr
    ∧ expr_eval cx0 (.op2 .COMMA divZeroE (.num (.rat 2))) []
        = (.ok (.num (.rat 2)), [], []) :=
  ⟨by with_unfolding_all rfl, by with_unfolding_all rfl⟩

/-- C2 amended: failure of a child propagates as NULL for every operator
node except `&&`, `||`, `=` and `,` (whose cases in `expr_eval` do not
check their child results): for the seventeen checked binary operators a
failed left child, or a failed right child under a successful left one,
fails the node, and each checked unary operator propagates its child's
failure. -/
theorem C2_amended_thm (cx : Ctx) (t : EType) (a b : Expr) (env : Env)
    (ht : t ∈ ([.POWER, .DIVIDE, .MULTIPLY, .REMAINDER, .PLUS, .MINUS,
        .SHL, .SHR, .LT, .LE, .GT, .GE, .EQ, .NE, .BITWISE_AND,
        .BITWISE_OR, .BITWISE_XOR] : List EType)) :
    ((expr_eval cx a env).1 = .nullr →
      (expr_eval cx (.op2 t a b) env).1 = .nullr)
    ∧ (∀ v e1 tr, expr_eval cx a env = (.ok v, e1, tr) →
        (expr_eval cx b e1).1 = .nullr →
        (expr_eval cx (.op2 t a b) env).1 = .nullr)
    ∧ (∀ u, u ∈ ([.UNARY_MINUS, .UNARY_LOGICAL_NOT,
          .UNARY_BITWISE_NOT] : List EType) →
        (expr_eval cx a env).1 = .nullr →
        (expr_eval cx (.op1 u a) env).1 = .nullr) := by
  refine ⟨?_, ?_, ?_⟩
  · intro h
    fin_cases ht <;>
      first
      | exact bin_num_null_left _ _ h
      | exact bin_cmp_null_left _ _ _ h
      | exact bin_plus_null_left _ h
  · intro v e1 tr h h2
    fin_cases ht <;>
      first
      | exact bin_num_null_right _ _ h h2
      | exact bin_cmp_null_right _ _ _ h h2
      | exact bin_plus_null_right _ h h2
  · intro u hu h
    fin_cases hu <;> exact un_num_null _ h

/-- C2 amended, witness: a failing left child of `+` fails the node. -/
theorem C2_amended_witness :
    (expr_eval cx0 divZeroE []).1 = .nullr
    ∧ (expr_eval cx0 (.op2 .PLUS divZeroE (.num (.rat 2))) []).1
        = .nullr := by
  refine ⟨by with_unfolding_all rfl, ?_⟩
  exact (C2_amended_thm cx0 .PLUS divZeroE (.num (.rat 2)) []
    (by decide)).1 (by with_unfolding_all rfl)

/-- C4: `&&` short-circuits.  If the left operand evaluates to the number
0.0, the node yields 0.0 with the left operand's variable-table and
callback-trace effects only — the right operand (in particular any
side-effecting call in it) is never evaluated; if the left is a non-zero
number and the right evaluates to 0.0 the node yields 0.0; if both are
non-zero numbers it yields the right operand's value. -/
theorem isZero_rat_zero : Flt.isZero (.rat 0) = true := by
  with_unfolding_all rfl

theorem C4_logical_and (cx : Ctx) (l r : Expr) (env : Env) :
    (∀ e1 tr, expr_eval cx l env = (.ok (.num (.rat 0)), e1, tr) →
      expr_eval cx (.op2 .LOGICAL_AND l r) env
        = (.ok (.num (.rat 0)), e1, tr))
    ∧ (∀ x e1 t1 e2 t2, expr_eval cx l env = (.ok (.num x), e1, t1) →
        x ≠ .rat 0 →
        expr_eval cx r e1 = (.ok (.num (.rat 0)), e2, t2) →
        expr_eval cx (.op2 .LOGICAL_AND l r) env
          = (.ok (.num (.rat 0)), e2, t1 ++ t2))
    ∧ (∀ x y e1 t1 e2 t2, expr_eval cx l env = (.ok (.num x), e1, t1) →
        x ≠ .rat 0 →
        expr_eval cx r e1 = (.ok (.num y), e2, t2) → y ≠ .rat 0 →
        expr_eval cx (.op2 .LOGICAL_AND l r) env
          = (.ok (.num y), e2, t1 ++ t2)) := by
  refine ⟨?_, ?_, ?_⟩
  · intro e1 tr h
    simp [expr_eval, h, valNum, Flt.isZero]
  · intro x e1 t1 e2 t2 h hx h2
    have hxz : Flt.isZero x = false := by
      cases x <;> simp_all [Flt.isZero]
    simp [expr_eval, h, h2, valNum, hxz, isZero_rat_zero]
  · intro x y e1 t1 e2 t2 h hx h2 hy
    have hxz : Flt.isZero x = false := by
      cases x <;> simp_all [Flt.isZero]
    have hyz : Flt.isZero y = false := by
      cases y <;> simp_all [Flt.isZero]
    simp [expr_eval, h, h2, valNum, hxz, hyz]

/-- C4 witness: `0 && f()` yields 0 without invoking `f` (empty trace);
`1 && 0` yields 0; `1 && 7` yields 7 — with the instantiated hypotheses
stated alongside. -/
theorem C4_witness :
    expr_eval cx0 (.num (.rat 0)) [] = (.ok (.num (.rat 0)), [], [])
    ∧ expr_eval cx0 (.num (.rat 1)) [] = (.ok (.num (.rat 1)), [], [])
    ∧ (Flt.rat 1 : Flt) ≠ .rat 0
    ∧ expr_eval cx0 (.op2 .LOGICAL_AND (.num (.rat 0)) (.fn "f" [])) []
        = (.ok (.num (.rat 0)), [], [])
    ∧ expr_eval cx0 (.op2 .LOGICAL_AND (.num (.rat 1)) (.num (.rat 0))) []
        = (.ok (.num (.rat 0)), [], [])
    ∧ expr_eval cx0 (.op2 .LOGICAL_AND (.num (.rat 1)) (.num (.rat 7))) []
        = (.ok (.num (.rat 7)), [], []) := by
  refine ⟨by with_unfolding_all rfl, by with_unfolding_all rfl, by simp,
    ?_, ?_, ?_⟩
  · exact (C4_logical_and cx0 _ _ []).1 [] [] (by with_unfolding_all rfl)
  · exact (C4_logical_and cx0 _ _ []).2.1 (.rat 1) [] [] [] []
      (by with_unfolding_all rfl) (by simp)
      (by with_unfolding_all rfl)
  · exact (C4_logical_and cx0 _ _ []).2.2 (.rat 1) (.rat 7) [] [] [] []
      (by with_unfolding_all rfl) (by simp)
      (by with_unfolding_all rfl) (by simp)

/-- C5: `+` with a string left operand concatenates (a numeric right is
first `%g`-formatted); otherwise it adds numerically (a string right is
first `atof`-parsed); in particular a numeric left with a string right
does not concatenate: `1+"2"` is the number 3 and `"3"+4` is the string
"34". -/
theorem C5_plus (cx : Ctx) (a b : Expr) (env : Env) :
    (∀ s y e1 t1 e2 t2,
      expr_eval cx a env = (.ok (.str s), e1, t1) →
      expr_eval cx b e1 = (.ok (.num y), e2, t2) →
      expr_eval cx (.op2 .PLUS a b) env
        = (.ok (.str (s ++ fmtG y)), e2, t1 ++ t2))
    ∧ (∀ s0 s1 e1 t1 e2 t2,
      expr_eval cx a env = (.ok (.str s0), e1, t1) →
      expr_eval cx b e1 = (.ok (.str s1), e2, t2) →
      expr_eval cx (.op2 .PLUS a b) env
        = (.ok (.str (s0 ++ s1)), e2, t1 ++ t2))
    ∧ (∀ x y e1 t1 e2 t2,
      expr_eval cx a env = (.ok (.num x), e1, t1) →
      expr_eval cx b e1 = (.ok (.num y), e2, t2) →
      expr_eval cx (.op2 .PLUS a b) env
        = (.ok (.num (Flt.sadd x y)), e2, t1 ++ t2))
    ∧ (∀ x s e1 t1 e2 t2,
      expr_eval cx a env = (.ok (.num x), e1, t1) →
      expr_eval cx b e1 = (.ok (.str s), e2, t2) →
      expr_eval cx (.op2 .PLUS a b) env
        = (.ok (.num (Flt.sadd x (atofS s))), e2, t1 ++ t2))
    ∧ parseEval cx [] "1+\"2\"" = some (.ok (.num (.rat 3)), [], [])
    ∧ parseEval cx [] "\"3\"+4" = some (.ok (.str "34"), [], []) := by
  refine ⟨?_, ?_, ?_, ?_, ?_, ?_⟩
  · intro s y e1 t1 e2 t2 h h2
    simp [expr_eval, bin_plus, h, h2]
  · intro s0 s1 e1 t1 e2 t2 h h2
    simp [expr_eval, bin_plus, h, h2]
  · intro x y e1 t1 e2 t2 h h2
    simp [expr_eval, bin_plus, h, h2]
  · intro x s e1 t1 e2 t2 h h2
    simp [expr_eval, bin_plus, h, h2]
  · with_unfolding_all rfl
  · with_unfolding_all rfl

/-- C5 witness: the four coercion shapes at concrete operands, with the
instantiated hypotheses stated alongside. -/
theorem C5_witness :
    expr_eval cx0 (.stz "3") [] = (.ok (.str "3"), [], [])
    ∧ expr_eval cx0 (.num (.rat 4)) [] = (.ok (.num (.rat 4)), [], [])
    ∧ expr_eval cx0 (.op2 .PLUS (.stz "3") (.num (.rat 4))) []
        = (.ok (.str ("3" ++ fmtG (.rat 4))), [], [])
    ∧ expr_eval cx0 (.op2 .PLUS (.stz "1") (.stz "2")) []
        = (.ok (.str ("1" ++ "2")), [], [])
    ∧ expr_eval cx0 (.op2 .PLUS (.num (.rat 1)) (.num (.rat 2))) []
        = (.ok (.num (Flt.sadd (.rat 1) (.rat 2))), [], [])
    ∧ expr_eval cx0 (.op2 .PLUS (.num (.rat 1)) (.stz "2")) []
        = (.ok (.num (Flt.sadd (.rat 1) (atofS "2"))), [], []) := by
  refine ⟨by with_unfolding_all rfl, by with_unfolding_all rfl,
    ?_, ?_, ?_, ?_⟩
  · exact (C5_plus cx0 _ _ []).1 "3" (.rat 4) [] [] [] []
      (by with_unfolding_all rfl) (by with_unfolding_all rfl)
  · exact (C5_plus cx0 _ _ []).2.1 "1" "2" [] [] [] []
      (by with_unfolding_all rfl) (by with_unfolding_all rfl)
  · exact (C5_plus cx0 _ _ []).2.2.1 (.rat 1) (.rat 2) [] [] [] []
      (by with_unfolding_all rfl) (by with_unfolding_all rfl)
  · exact (C5_plus cx0 _ _ []).2.2.2.1 (.rat 1) "2" [] [] [] []
      (by with_unfolding_all rfl) (by with_unfolding_all rfl)

/-- C6 counterexample: the comma operator is not left-associative.  On
equal precedence `expr_prec` does not pop a stacked `,`, so `1,2,3`
parses right-nested as `1,(2,3)` — refuting "the other binary operators
are left-associative" at `,`. -/
theorem C6_counterexample :
    expr_create [] "1,2,3".toList
      = some (.op2 .COMMA (.num (.rat 1))
          (.op2 .COMMA (.num (.rat 2)) (.num (.rat 3))))
    ∧ expr_prec .COMMA .COMMA = false :=
  ⟨by with_unfolding_all rfl, by with_unfolding_all rfl⟩

/-- C6 amended: `**`, `=` and also `,` are right-leaning (an
equal-precedence operator on the stack does not pop); every other binary
operator is left-associative (equal precedence pops); and concretely
`2**3**2` parses as `2**(3**2)` and evaluates to 512, `a=b=3` parses and
leaves both `a` and `b` at 3, `10-2-3` parses as `(10-2)-3` and yields 5,
and `12/2/3` yields 2. -/
theorem C6_amended_thm :
    (expr_prec .ASSIGN .ASSIGN = false ∧ expr_prec .POWER .POWER = false
      ∧ expr_prec .COMMA .COMMA = false)
    ∧ (∀ t, t ∈ ([.DIVIDE, .MULTIPLY, .REMAINDER, .PLUS, .MINUS, .SHL,
        .SHR, .LT, .LE, .GT, .GE, .EQ, .NE, .BITWISE_AND, .BITWISE_OR,
        .BITWISE_XOR, .LOGICAL_AND, .LOGICAL_OR] : List EType) →
        expr_prec t t = true)
    ∧ (∀ cx : Ctx,
        parseEval cx [] "2**3**2" = some (.ok (.num (.rat 512)), [], []))
    ∧ expr_create [] "2**3**2".toList
        = some (.op2 .POWER (.num (.rat 2))
            (.op2 .POWER (.num (.rat 3)) (.num (.rat 2))))
    ∧ (∀ cx : Ctx, parseEval cx [] "a=b=3"
        = some (.ok (.num (.rat 3)),
            [("a", Flt.rat 3), ("b", Flt.rat 3)], []))
    ∧ (∀ cx : Ctx,
        parseEval cx [] "10-2-3" = some (.ok (.num (.rat 5)), [], []))
    ∧ expr_create [] "10-2-3".toList
        = some (.op2 .MINUS (.op2 .MINUS (.num (.rat 10)) (.num (.rat 2)))
            (.num (.rat 3)))
    ∧ (∀ cx : Ctx,
        parseEval cx [] "12/2/3" = some (.ok (.num (.rat 2)), [], [])) := by
  refine ⟨⟨by decide, by decide, by decide⟩, ?_,
    fun cx => by with_unfolding_all rfl, by with_unfolding_all rfl,
    fun cx => by with_unfolding_all rfl,
    fun cx => by with_unfolding_all rfl, by with_unfolding_all rfl,
    fun cx => by with_unfolding_all rfl⟩
  intro t ht
  fin_cases ht <;> decide

/-- C6 amended, witness: left-associativity instantiated at `-`. -/
theorem C6_amended_witness :
    ((EType.MINUS) ∈ ([.DIVIDE, .MULTIPLY, .REMAINDER, .PLUS, .MINUS, .SHL,
        .SHR, .LT, .LE, .GT, .GE, .EQ, .NE, .BITWISE_AND, .BITWISE_OR,
        .BITWISE_XOR, .LOGICAL_AND, .LOGICAL_OR] : List EType))
    ∧ expr_prec .MINUS .MINUS = true :=
  ⟨by decide, C6_amended_thm.2.1 .MINUS (by decide)⟩

theorem truncQ_eq_floor_ceil (q : ℚ) :
    Flt.truncQ q = if 0 ≤ q then ⌊q⌋ else ⌈q⌉ := by
  unfold Flt.truncQ
  by_cases h : 0 ≤ q
  · rw [if_pos h, Rat.floor_def]
    exact Int.tdiv_eq_ediv (Rat.num_nonneg.mpr h) (Int.natCast_nonneg _)
  · rw [if_neg h]
    push_neg at h
    have hn : q.num < 0 := Rat.num_neg.mpr h
    have h1 : q.num.tdiv q.den = -((-q.num).tdiv q.den) := by
      rw [Int.neg_tdiv, Int.neg_neg]
    rw [h1, Int.tdiv_eq_ediv (by omega) (Int.natCast_nonneg _),
      ← neg_inj, neg_neg, ← Int.floor_neg, Rat.floor_def, Rat.neg_num,
      Rat.neg_den]

/-- C8: `to_int` maps NaN to 0, +Inf to INT_MAX, -Inf to -INT_MAX and a
finite value to its truncation toward zero (floor for nonnegative, ceiling
for negative); the bitwise and shift operators `<<`, `>>`, `&`, `|`, `^`
and unary `^` all apply this projection to their numeric operand(s) before
the integer operation. -/
theorem C8_to_int (cx : Ctx) (a b : Expr) (env : Env) :
    to_int .nan = 0
    ∧ to_int .pinf = INT_MAX
    ∧ to_int .ninf = -INT_MAX
    ∧ (∀ q : ℚ, to_int (.rat q) = if 0 ≤ q then ⌊q⌋ else ⌈q⌉)
    ∧ (∀ x y e1 t1 e2 t2,
        expr_eval cx a env = (.ok (.num x), e1, t1) →
        expr_eval cx b e1 = (.ok (.num y), e2, t2) →
        expr_eval cx (.op2 .SHL a b) env
            = (.ok (.num (.rat (intShl (to_int x) (to_int y) : ℚ))),
               e2, t1 ++ t2)
        ∧ expr_eval cx (.op2 .SHR a b) env
            = (.ok (.num (.rat (intShr (to_int x) (to_int y) : ℚ))),
               e2, t1 ++ t2)
        ∧ expr_eval cx (.op2 .BITWISE_AND a b) env
            = (.ok (.num (.rat (Int.land (to_int x) (to_int y) : ℚ))),
               e2, t1 ++ t2)
        ∧ expr_eval cx (.op2 .BITWISE_OR a b) env
            = (.ok (.num (.rat (Int.lor (to_int x) (to_int y) : ℚ))),
               e2, t1 ++ t2)
        ∧ expr_eval cx (.op2 .BITWISE_XOR a b) env
            = (.ok (.num (.rat (Int.xor (to_int x) (to_int y) : ℚ))),
               e2, t1 ++ t2))
    ∧ (∀ x e1 t1,
        expr_eval cx a env = (.ok (.num x), e1, t1) →
        expr_eval cx (.op1 .UNARY_BITWISE_NOT a) env
            = (.ok (.num (.rat ((~~~(to_int x) : Int) : ℚ))), e1, t1)) := by
  refine ⟨rfl, rfl, rfl, truncQ_eq_floor_ceil, ?_, ?_⟩
  · intro x y e1 t1 e2 t2 h h2
    refine ⟨?_, ?_, ?_, ?_, ?_⟩ <;> simp [expr_eval, bin_num, h, h2]
  · intro x e1 t1 h
    simp [expr_eval, un_num, h]

/-- C8 witness: the shift/bitwise projection at the concrete operands 7
and 2 (with the instantiated hypotheses stated alongside), and the
truncation cases at -2.5 (→ -2) and 2.5 (→ 2). -/
theorem C8_witness :
    expr_eval cx0 (.num (.rat 7)) [] = (.ok (.num (.rat 7)), [], [])
    ∧ expr_eval cx0 (.num (.rat 2)) [] = (.ok (.num (.rat 2)), [], [])
    ∧ expr_eval cx0 (.op2 .SHL (.num (.rat 7)) (.num (.rat 2))) []
        = (.ok (.num (.rat (intShl (to_int (.rat 7)) (to_int (.rat 2)) : ℚ))),
           [], [])
    ∧ expr_eval cx0 (.op1 .UNARY_BITWISE_NOT (.num (.rat 7))) []
        = (.ok (.num (.rat ((~~~(to_int (.rat 7)) : Int) : ℚ))), [], [])
    ∧ to_int (.rat (-5 / 2)) = -2
    ∧ to_int (.rat (5 / 2)) = 2 := by
  refine ⟨by with_unfolding_all rfl, by with_unfolding_all rfl, ?_, ?_,
    by with_unfolding_all rfl, by with_unfolding_all rfl⟩
  · exact ((C8_to_int cx0 (.num (.rat 7)) (.num (.rat 2)) []).2.2.2.2.1
      (.rat 7) (.rat 2) [] [] [] [] (by with_unfolding_all rfl)
      (by with_unfolding_all rfl)).1
  · exact (C8_to_int cx0 (.num (.rat 7)) (.num (.rat 7)) []).2.2.2.2.2
      (.rat 7) [] [] (by with_unfolding_all rfl)

theorem takeWhile_ne_of_not_mem (c : Char) (t : List Char) (h : c ∉ t) :
    t.takeWhile (fun ch => !decide (ch = c)) = t := by
  induction t with
  | nil => rfl
  | cons x xs ih =>
    have hx : ¬ (x = c) := fun he => h (he ▸ List.mem_cons_self x xs)
    have hxs : c ∉ xs := fun hm => h (List.mem_cons_of_mem _ hm)
    simp [hx, ih hxs]

/-- C3 counterexample: on the input `"a` — a quote whose closing quote
never occurs — with the default flag mask (string tokens acceptable), the
tokenizer returns the positive count 3 (= remaining length + 1), not a
negative error code. -/
theorem C3_counterexample :
    (expr_next_token (QT :: 'a' :: []) EXPR_TDEFAULT).1 = 3
    ∧ ¬ (expr_next_token (QT :: 'a' :: []) EXPR_TDEFAULT).1 < 0 :=
  ⟨by with_unfolding_all rfl, by with_unfolding_all decide⟩

/-- C3 amended: an unterminated string is a lexical error only when the
opening quote is the last remaining byte (return -1, and parsing such an
input yields null); when any byte follows the quote and the matching
closing quote does not occur, the scan consumes past the end of the input
and returns the positive value `remaining length + 1` — no error. -/
theorem C3_amended_thm :
    (∀ (c : Char) (t : List Char) (f : TFlags), (c = QT ∨ c = AP) →
      f.tstring = true → t ≠ [] → c ∉ t →
      expr_next_token (c :: t) f = ((t.length + 2 : Int), FLAGS_OPCLOSE))
    ∧ (∀ (c : Char) (f : TFlags), (c = QT ∨ c = AP) →
      expr_next_token [c] f = (-1, f))
    ∧ expr_create [] [QT] = none := by
  refine ⟨?_, ?_, by with_unfolding_all rfl⟩
  · intro c t f hc hf ht hm
    rcases hc with rfl | rfl <;>
      (· simp only [expr_next_token]
         simp +decide [getc, hf, ht]
         rw [takeWhile_ne_of_not_mem _ t hm]
         ring)
  · intro c f hc
    rcases hc with rfl | rfl <;>
      (· simp only [expr_next_token]
         by_cases hf : f.tstring <;> simp +decide [getc, hf])

/-- C3 amended, witness: the two tokenizer facts at concrete inputs. -/
theorem C3_amended_witness :
    expr_next_token (QT :: 'a' :: 'b' :: []) EXPR_TDEFAULT
      = ((4 : Int), FLAGS_OPCLOSE)
    ∧ expr_next_token [AP] EXPR_TDEFAULT = (-1, EXPR_TDEFAULT) := by
  constructor
  · have h := C3_amended_thm.1 QT ['a', 'b'] EXPR_TDEFAULT (Or.inl rfl) rfl
      (by simp) (by decide)
    simpa using h
  · exact C3_amended_thm.2.1 AP EXPR_TDEFAULT (Or.inr rfl)

/-!  C7: a full characterisation of `expr_parse_number`. -/

/-- Specification side: number of characters after the first `'.'`
(0 when there is none). -/
def fracLen (s : List Char) : Nat :=
  ((s.dropWhile (fun c => c ≠ '.')).drop 1).length

/-- Specification side: the claim's well-formedness of a numeric literal —
only digits with at most one `'.'`, and at least one digit. -/
def wfNumLit (s : List Char) : Prop :=
  (∀ c ∈ s, isdigitC c = true ∨ c = '.')
  ∧ s.count '.' ≤ 1
  ∧ ∃ c ∈ s, isdigitC c = true

/-- Specification side: the decimal value of a well-formed literal — its
digits read as an integer, divided by ten to the number of fractional
digits. -/
def decVal (s : List Char) : ℚ :=
  (digitsToNat (s.filter isdigitC) : ℚ) / 10 ^ fracLen s

/-- The scanning loop's accumulator over ℚ. -/
def accQ (q : ℚ) (l : List Char) : ℚ :=
  l.foldl (fun a c => a * 10 + ((c.toNat - 48 : Nat) : ℚ)) q

theorem digitsToNat_acc (l : List Char) :
    ∀ n : Nat, l.foldl (fun a c => a * 10 + (c.toNat - 48)) n
      = n * 10 ^ l.length + digitsToNat l := by
  induction l with
  | nil => intro n; simp [digitsToNat]
  | cons c l ih =>
    intro n
    have h1 := ih (n * 10 + (c.toNat - 48))
    have h2 := ih (c.toNat - 48)
    simp only [List.foldl_cons, digitsToNat] at h1 h2 ⊢
    rw [h1]
    have h0 : (0 : Nat) * 10 + (c.toNat - 48) = c.toNat - 48 := by omega
    rw [h0, h2, List.length_cons]
    ring

theorem accQ_eq (l : List Char) :
    ∀ q : ℚ, accQ q l = q * 10 ^ l.length + (digitsToNat l : ℚ) := by
  induction l with
  | nil => intro q; simp [accQ, digitsToNat]
  | cons c l ih =>
    intro q
    have h1 := ih (q * 10 + ((c.toNat - 48 : Nat) : ℚ))
    simp only [accQ, List.foldl_cons] at h1 ⊢
    rw [h1]
    have h2 : digitsToNat (c :: l)
        = (c.toNat - 48) * 10 ^ l.length + digitsToNat l := by
      simp only [digitsToNat, List.foldl_cons]
      have h0 : (0 : Nat) * 10 + (c.toNat - 48) = c.toNat - 48 := by omega
      rw [h0, digitsToNat_acc]
      rfl
    rw [h2, List.length_cons]
    push_cast
    ring

theorem isdigitC_ne_dot {c : Char} (h : isdigitC c = true) : ¬ (c = '.') := by
  intro he
  subst he
  exact absurd h (by decide)

theorem loop_postdot (s : List Char) (hq : ∀ c ∈ s, isdigitC c = true) :
    ∀ (num : ℚ) (frac digits : Nat), 1 ≤ frac →
    parse_number_loop s num frac digits
      = some (accQ num s, frac + s.length, digits + s.length) := by
  induction s with
  | nil => intro num frac digits _; simp [parse_number_loop, accQ]
  | cons c l ih =>
    intro num frac digits hf
    have hc : isdigitC c = true := hq c (List.mem_cons_self c l)
    have hcd : ¬ (c = '.' ∧ frac = 0) := by
      intro hpair
      have := hpair.2
      omega
    have hfr : (if 0 < frac then frac + 1 else frac) = frac + 1 :=
      if_pos (by omega)
    simp only [parse_number_loop, if_neg hcd, if_pos hc, hfr]
    rw [ih (fun x hx => hq x (List.mem_cons_of_mem c hx)) _ _ _
      (by omega)]
    simp only [accQ, List.foldl_cons, List.length_cons]
    refine congrArg some ?_
    refine Prod.ext rfl (Prod.ext ?_ ?_) <;> simp <;> omega

theorem fracLen_cons_digit {c : Char} (l : List Char) (h : ¬ (c = '.')) :
    fracLen (c :: l) = fracLen l := by
  simp [fracLen, List.dropWhile_cons, h]

theorem fracLen_cons_dot (l : List Char) : fracLen ('.' :: l) = l.length := by
  simp [fracLen, List.dropWhile_cons]

theorem fracLen_no_dot (s : List Char) (h : s.count '.' = 0) :
    fracLen s = 0 := by
  have h2 : '.' ∉ s := by
    intro hm
    have := List.count_pos_iff.mpr hm
    omega
  have h3 : s.dropWhile (fun c => !decide (c = '.')) = [] := by
    rw [List.dropWhile_eq_nil_iff]
    intro x hx
    have hxne : ¬ (x = '.') := fun he => h2 (he ▸ hx)
    simp [hxne]
  simp only [fracLen]
  rw [show (fun c : Char => decide ¬(c = '.')) = (fun c : Char => !decide (c = '.')) from ?_]
  · rw [h3]
    rfl
  · funext c
    simp [decide_not]

theorem loop_predot (s : List Char)
    (hq : ∀ c ∈ s, isdigitC c = true ∨ c = '.') (hcnt : s.count '.' ≤ 1) :
    ∀ (num : ℚ) (digits : Nat),
    parse_number_loop s num 0 digits
      = some (accQ num (s.filter isdigitC),
          if s.count '.' = 0 then 0 else 1 + fracLen s,
          digits + (s.filter isdigitC).length) := by
  induction s with
  | nil =>
    intro num digits
    simp [parse_number_loop, accQ]
  | cons c l ih =>
    intro num digits
    rcases hq c (List.mem_cons_self c l) with hc | hc
    · have hne : ¬ (c = '.') := isdigitC_ne_dot hc
      have hne2 : ¬ ('.' = c) := fun he => hne he.symm
      have hcd : ¬ (c = '.' ∧ (0 : Nat) = 0) := fun hp => hne hp.1
      have hcount : (c :: l).count '.' = l.count '.' := by
        simp [List.count_cons, hne2]
      have hcnt2 : l.count '.' ≤ 1 := by rw [hcount] at hcnt; exact hcnt
      rw [parse_number_loop, if_neg hcd, if_pos hc,
        if_neg (lt_irrefl (0 : Nat)),
        ih (fun x hx => hq x (List.mem_cons_of_mem c hx)) hcnt2]
      have hfilter : List.filter isdigitC (c :: l)
          = c :: List.filter isdigitC l := by
        simp [List.filter_cons, hc]
      rw [hfilter, fracLen_cons_digit l hne, hcount]
      refine congrArg some ?_
      refine Prod.ext ?_ (Prod.ext rfl ?_)
      · simp [accQ, List.foldl_cons]
      · simp
        omega
    · subst hc
      have hcntl : l.count '.' = 0 := by
        simp [List.count_cons] at hcnt
        omega
      have hall : ∀ x ∈ l, isdigitC x = true := by
        intro x hx
        rcases hq x (List.mem_cons_of_mem _ hx) with h | h
        · exact h
        · exfalso
          subst h
          have := List.count_pos_iff.mpr hx
          omega
      rw [parse_number_loop, if_pos ⟨rfl, rfl⟩,
        loop_postdot l hall num 1 digits le_rfl]
      have hfl : List.filter isdigitC ('.' :: l) = l := by
        rw [List.filter_cons]
        simp only [show isdigitC '.' = false from by decide,
          Bool.false_eq_true, if_false]
        exact List.filter_eq_self.mpr hall
      have hcnz : ¬ (('.' :: l).count '.' = 0) := by
        simp [List.count_cons]
      rw [hfl, fracLen_cons_dot, if_neg hcnz]

/-- The scanner-state well-formedness used to show every ill-formed input
reaches the early `return NAN`. -/
def okState (s : List Char) (frac : Nat) : Prop :=
  (∀ c ∈ s, isdigitC c = true ∨ c = '.')
  ∧ (frac = 0 → s.count '.' ≤ 1)
  ∧ (1 ≤ frac → s.count '.' = 0)

theorem loop_bad (s : List Char) : ∀ (num : ℚ) (frac digits : Nat),
    ¬ okState s frac → parse_number_loop s num frac digits = none := by
  induction s with
  | nil =>
    intro num frac digits h
    refine absurd (⟨?_, ?_, ?_⟩ : okState [] frac) h
    · intro x hx
      exact absurd hx (List.not_mem_nil x)
    · intro _
      simp
    · intro _
      simp
  | cons c l ih =>
    intro num frac digits h
    by_cases hcd : c = '.' ∧ frac = 0
    · obtain ⟨rfl, hf0⟩ := hcd
      subst hf0
      rw [parse_number_loop, if_pos ⟨rfl, rfl⟩]
      apply ih
      intro hok
      obtain ⟨h1, _, h3⟩ := hok
      apply h
      refine ⟨?_, ?_, ?_⟩
      · intro x hx
        rcases List.mem_cons.mp hx with rfl | hx
        · exact Or.inr rfl
        · exact h1 x hx
      · intro _
        have hl := h3 le_rfl
        simp [List.count_cons]
        omega
      · intro hbad
        omega
    · by_cases hd : isdigitC c = true
      · have hne : ¬ (c = '.') := isdigitC_ne_dot hd
        have hne2 : ¬ ('.' = c) := fun he => hne he.symm
        rw [parse_number_loop, if_neg hcd, if_pos hd]
        apply ih
        intro hok
        obtain ⟨h1, h2, h3⟩ := hok
        have hcount : (c :: l).count '.' = l.count '.' := by
          simp [List.count_cons, hne2]
        apply h
        refine ⟨?_, ?_, ?_⟩
        · intro x hx
          rcases List.mem_cons.mp hx with rfl | hx
          · exact Or.inl hd
          · exact h1 x hx
        · intro hf0
          subst hf0
          rw [hcount]
          exact h2 (by simp)
        · intro hf1
          have hfr : (if 0 < frac then frac + 1 else frac) = frac + 1 :=
            if_pos (by omega)
          rw [hfr] at h3
          rw [hcount]
          exact h3 (by omega)
      · rw [parse_number_loop, if_neg hcd, if_neg hd]

/-- C7: `expr_parse_number` returns the decimal value of its input
whenever the input consists only of digits with at most one `'.'` and at
least one digit (leading zeros included), and NaN on every other input
(in particular on the lone `"."` and on any input with a second `'.'` or a
non-digit byte). -/
theorem C7_parse_number (s : List Char) :
    (wfNumLit s → expr_parse_number s = .rat (decVal s))
    ∧ (¬ wfNumLit s → expr_parse_number s = .nan) := by
  constructor
  · rintro ⟨h1, h2, c, hcmem, hcd⟩
    have hpos : 0 < (s.filter isdigitC).length := by
      have hmem : c ∈ s.filter isdigitC := List.mem_filter.mpr ⟨hcmem, hcd⟩
      cases hfe : s.filter isdigitC with
      | nil => rw [hfe] at hmem; exact absurd hmem (List.not_mem_nil c)
      | cons a l => simp
    rw [expr_parse_number, loop_predot s h1 h2]
    simp only
    rw [if_pos (by omega)]
    refine congrArg Flt.rat ?_
    rw [accQ_eq, zero_mul, zero_add]
    unfold decVal
    by_cases hz : s.count '.' = 0
    · rw [if_pos hz, fracLen_no_dot s hz]
    · rw [if_neg hz]
      have he : 1 + fracLen s - 1 = fracLen s := by omega
      rw [he]
  · intro hw
    by_cases hok : okState s 0
    · obtain ⟨h1, h2, _⟩ := hok
      have hcnt := h2 rfl
      have hnod : ∀ c ∈ s, ¬ (isdigitC c = true) := by
        intro c hc hd
        exact hw ⟨h1, hcnt, c, hc, hd⟩
      have hfe : s.filter isdigitC = [] := by
        rw [List.filter_eq_nil_iff]
        exact hnod
      rw [expr_parse_number, loop_predot s h1 hcnt]
      simp only [hfe]
      rfl
    · rw [expr_parse_number, loop_bad s _ _ _ hok]

/-- C7 witness: the well-formed literal `007.5` (leading zeros, one dot)
parses to its decimal value, and the lone `.` is NaN. -/
theorem C7_witness :
    wfNumLit "007.5".toList
    ∧ expr_parse_number "007.5".toList = .rat (decVal "007.5".toList)
    ∧ ¬ wfNumLit ".".toList
    ∧ expr_parse_number ".".toList = .nan := by
  have h1 : wfNumLit "007.5".toList := by
    refine ⟨by decide, by decide, '7', by decide, by decide⟩
  have h2 : ¬ wfNumLit ".".toList := by
    rintro ⟨-, -, c, hc, hd⟩
    have hcd : c = '.' := by simpa using hc
    subst hcd
    exact absurd hd (by decide)
  exact ⟨h1, (C7_parse_number _).1 h1, h2, (C7_parse_number _).2 h2⟩

/-!  C10: parsing whitespace/comment-only input. -/

/-- Input consisting only of whitespace and `#`-comments: empty, a
whitespace byte followed by more of the same, or a comment — `#`, a body
without newline, then either the end of the input or its terminating
newline — followed by more of the same. -/
inductive WsComment : List Char → Prop where
  | nil : WsComment []
  | ws {c : Char} {rest : List Char} : isspaceC c = true →
      WsComment rest → WsComment (c :: rest)
  | comment {body rest : List Char} : (∀ c ∈ body, ¬ (c = NLC)) →
      (rest = [] ∨ getc rest 0 = NLC) → WsComment rest →
      WsComment ('#' :: body ++ rest)

theorem takeWhile_length_mono (p q : Char → Bool)
    (hpq : ∀ c, p c = true → q c = true) :
    ∀ s : List Char, (s.takeWhile p).length ≤ (s.takeWhile q).length := by
  intro s
  induction s with
  | nil => simp
  | cons c rest ih =>
    by_cases hp : p c = true
    · rw [List.takeWhile_cons_of_pos hp, List.takeWhile_cons_of_pos (hpq c hp)]
      simpa using ih
    · rw [List.takeWhile_cons_of_neg (by simpa using hp)]
      simp

theorem wsc_drop_spaces : ∀ (s : List Char), WsComment s →
    ∀ n : Nat, n ≤ (s.takeWhile isspaceC).length → WsComment (s.drop n)
  | s, hw, 0, _ => by simpa using hw
  | [], hw, n + 1, h => by simpa using hw
  | c :: rest, hw, n + 1, h => by
    have hc : isspaceC c = true := by
      by_cases hc : isspaceC c = true
      · exact hc
      · rw [List.takeWhile_cons_of_neg (by simpa using hc)] at h
        simp at h
    have hrest : WsComment rest := by
      cases hw with
      | ws _ hr => exact hr
      | comment _ _ _ => exact absurd hc (by decide)
    rw [List.takeWhile_cons_of_pos hc] at h
    simp only [List.drop_succ_cons]
    exact wsc_drop_spaces rest hrest n (by simpa using h)

theorem next_token_wsc_space (c : Char) (rest : List Char)
    (hc : isspaceC c = true) :
    ∃ n : Nat, 1 ≤ n ∧ n ≤ ((c :: rest).takeWhile isspaceC).length ∧
      expr_next_token (c :: rest) EXPR_TDEFAULT
        = ((n : Int), EXPR_TDEFAULT) := by
  have hhash : ¬ (c = '#') := by
    intro he
    subst he
    exact absurd hc (by decide)
  by_cases hnl : c = NLC
  · subst hnl
    refine ⟨((NLC :: rest).takeWhile isspaceC).length, ?_, le_rfl, ?_⟩
    · rw [List.takeWhile_cons_of_pos (by decide)]
      simp
    · simp only [expr_next_token]
      simp +decide [getc]
  · refine ⟨((c :: rest).takeWhile
        (fun ch => isspaceC ch ∧ ch ≠ NLC)).length, ?_, ?_, ?_⟩
    · rw [List.takeWhile_cons_of_pos (by simp [hc, hnl])]
      simp
    · exact takeWhile_length_mono _ _ (fun x hx => by
        simp at hx
        simp [hx.1]) (c :: rest)
    · simp only [expr_next_token]
      simp [getc, hhash, hnl, hc]

theorem next_token_wsc_comment (body rest : List Char)
    (hb : ∀ c ∈ body, ¬ (c = NLC)) (hsep : rest = [] ∨ getc rest 0 = NLC) :
    expr_next_token ('#' :: body ++ rest) EXPR_TDEFAULT
      = (((1 + body.length : Nat) : Int), EXPR_TDEFAULT) := by
  have htw : (('#' :: body ++ rest).takeWhile (fun ch => ch ≠ NLC))
      = '#' :: body := by
    have h1 : ('#' :: body ++ rest) = ('#' :: body) ++ rest := rfl
    rw [h1, List.takeWhile_append_of_pos ?hpos]
    case hpos =>
      intro a ha
      rcases List.mem_cons.mp ha with rfl | ha
      · decide
      · simp [hb a ha]
    have h2 : rest.takeWhile (fun ch => ch ≠ NLC) = [] := by
      rcases hsep with rfl | hh
      · rfl
      · cases rest with
        | nil => rfl
        | cons r rs =>
          simp [getc] at hh
          rw [List.takeWhile_cons_of_neg]
          simp [hh]
    rw [h2, List.append_nil]
  simp only [expr_next_token]
  rw [htw]
  simp +decide [getc]
  omega

theorem stepTok_wsc (funcs : List (List Char)) (tok : List Char) (n : Nat)
    (h : isspaceC (getc tok 0) = true ∨ getc tok 0 = '#') :
    stepTok funcs tok n EXPR_TDEFAULT initPSt = some initPSt := by
  rcases h with h | h
  · have hhash : ¬ (getc tok 0 = '#') := by
      intro he
      rw [he] at h
      exact absurd h (by decide)
    simp only [stepTok]
    rw [if_neg hhash]
    simp only [EXPR_TDEFAULT, Bool.false_eq_true, false_and, if_neg,
      and_false]
    simp [h, initPSt, EXPR_TDEFAULT]
  · simp [stepTok, h, initPSt]

theorem parseLoop_wsc (funcs : List (List Char)) :
    ∀ (fuel : Nat) (s : List Char), s.length < fuel → WsComment s →
    parseLoop funcs fuel s initPSt = some initPSt := by
  intro fuel
  induction fuel with
  | zero =>
    intro s h _
    omega
  | succ m ih =>
    intro s hlen hw
    cases hw with
    | nil =>
      rw [parseLoop]
      rfl
    | ws hc hrest =>
      rename_i c rest
      obtain ⟨n, hn1, hn2, hne⟩ := next_token_wsc_space c rest hc
      rw [parseLoop]
      have hf0 : initPSt.flags = EXPR_TDEFAULT := rfl
      simp only [hf0, hne]
      rw [if_neg (by omega), if_neg (by omega)]
      have htoN : ((n : Int)).toNat = n := Int.toNat_natCast n
      rw [htoN]
      have hhead : getc ((c :: rest).take n) 0 = c := by
        cases n with
        | zero => omega
        | succ k => rfl
      rw [stepTok_wsc funcs _ n (Or.inl (by rw [hhead]; exact hc))]
      simp only
      have hlen2 : ((c :: rest).drop n).length < m := by
        have h1 : n ≤ (c :: rest).length := by
          calc n ≤ ((c :: rest).takeWhile isspaceC).length := hn2
          _ ≤ (c :: rest).length := (List.takeWhile_prefix _).length_le
        simp only [List.length_drop, List.length_cons] at *
        omega
      exact ih _ hlen2 (wsc_drop_spaces _ (WsComment.ws hc hrest) n hn2)
    | comment hb hsep hrest =>
      rename_i body rest
      rw [parseLoop]
      have hf0 : initPSt.flags = EXPR_TDEFAULT := rfl
      simp only [hf0, next_token_wsc_comment body rest hb hsep]
      rw [if_neg (by omega), if_neg (by omega)]
      have htoN : (((1 + body.length : Nat) : Int)).toNat = 1 + body.length :=
        Int.toNat_natCast _
      rw [htoN]
      have hhead : getc (('#' :: body ++ rest).take (1 + body.length)) 0
          = '#' := by
        rw [Nat.one_add]
        rfl
      rw [stepTok_wsc funcs _ _ (Or.inr hhead)]
      simp only
      have hdrop : ('#' :: body ++ rest).drop (1 + body.length) = rest := by
        have h1 : ('#' :: body ++ rest) = ('#' :: body) ++ rest := rfl
        rw [h1, List.drop_left' (by simp; omega)]
      rw [hdrop]
      have hlen2 : rest.length < m := by
        have := hlen
        simp only [List.length_cons, List.length_append] at this
        omega
      exact ih rest hlen2 hrest

/-- C10: parsing an empty input, or an input consisting only of
whitespace and comments, succeeds: `expr_create` returns (non-null) the
zero-initialised `SNE_OP_CONSTNUM` node, and evaluating that node yields
the number 0 with no side effects. -/
theorem C10_empty_input (funcs : List (List Char)) (s : List Char)
    (cx : Ctx) (hw : WsComment s) :
    expr_create funcs s = some (.num (.rat 0))
    ∧ (expr_create funcs s).map (fun e => expr_eval cx e [])
        = some (.ok (.num (.rat 0)), [], []) := by
  have h1 : expr_create funcs s = some (.num (.rat 0)) := by
    unfold expr_create
    rw [parseLoop_wsc funcs (s.length + 1) s (by omega) hw]
    rfl
  refine ⟨h1, ?_⟩
  rw [h1]
  rfl

/-- C10 witness: at the empty input and at " #n\n " (space, comment,
newline, space). -/
theorem C10_witness :
    WsComment (' ' :: '#' :: 'n' :: NLC :: ' ' :: [])
    ∧ expr_create [] (' ' :: '#' :: 'n' :: NLC :: ' ' :: [])
        = some (.num (.rat 0))
    ∧ expr_create [] [] = some (.num (.rat 0)) := by
  have hw : WsComment (' ' :: '#' :: 'n' :: NLC :: ' ' :: []) := by
    refine .ws (by decide) ?_
    have he : ('#' :: 'n' :: NLC :: ' ' :: [])
        = '#' :: ['n'] ++ (NLC :: ' ' :: []) := rfl
    rw [he]
    refine .comment ?_ (Or.inr rfl) ?_
    · intro c hc
      have hcn : c = 'n' := by simpa using hc
      subst hcn
      decide
    · exact .ws (by decide) (.ws (by decide) .nil)
  exact ⟨hw, (C10_empty_input [] _ cx0 hw).1,
    (C10_empty_input [] [] cx0 .nil).1⟩

/-!  C9: every `Assign` node a successful parse builds has a `Var` first
child. -/

mutual
/-- Every `SNE_OP_ASSIGN` operator node in the tree has a `SNE_OP_VAR`
first child. -/
def AOk : Expr → Bool
  | .num _ => true
  | .stz _ => true
  | .var _ => true
  | .fn _ args => AOkL args
  | .op1 _ a => AOk a
  | .op2 t a b => (!(t == EType.ASSIGN) || isVarE a) && AOk a && AOk b

/-- `AOk` on every element. -/
def AOkL : List Expr → Bool
  | [] => true
  | e :: rest => AOk e && AOkL rest
end

theorem AOkL_cons_iff {e : Expr} {es : List Expr} :
    AOkL (e :: es) = true ↔ AOk e = true ∧ AOkL es = true := by
  simp [AOkL, Bool.and_eq_true]

theorem AOkL_append_iff (l1 l2 : List Expr) :
    AOkL (l1 ++ l2) = true ↔ AOkL l1 = true ∧ AOkL l2 = true := by
  induction l1 with
  | nil => simp [AOkL]
  | cons e l ih =>
    simp only [List.cons_append, AOkL_cons_iff, ih]
    tauto

theorem AOk_op2_iff {t : EType} {a b : Expr} :
    AOk (.op2 t a b) = true
      ↔ (t = .ASSIGN → isVarE a = true) ∧ AOk a = true ∧ AOk b = true := by
  simp only [AOk, Bool.and_eq_true, Bool.or_eq_true, Bool.not_eq_true']
  constructor
  · rintro ⟨⟨h1, h2⟩, h3⟩
    refine ⟨?_, h2, h3⟩
    intro ht
    rcases h1 with h1 | h1
    · rw [ht] at h1
      simp at h1
    · exact h1
  · rintro ⟨h1, h2, h3⟩
    refine ⟨⟨?_, h2⟩, h3⟩
    by_cases ht : t = .ASSIGN
    · exact Or.inr (h1 ht)
    · exact Or.inl (by simp [ht])

/-- The parse-state invariant: all assign nodes on the operand stack,
inside open call frames and inside stored macro bodies are
well-formed. -/
def StOk (st : PSt) : Prop :=
  AOkL st.es = true
  ∧ (∀ fr ∈ st.frames, AOkL fr.args = true)
  ∧ (∀ m ∈ st.macros, AOkL m.2 = true)

theorem expr_bind_AOk {tok : List Char} {es es' : List Expr}
    (h : AOkL es = true) (hb : expr_bind tok es = some es') :
    AOkL es' = true := by
  by_cases h0 : expr_op tok none = .UNKNOWN
  · simp only [expr_bind, if_pos h0] at hb
    exact Option.noConfusion hb
  · by_cases h1 : expr_is_unary (expr_op tok none) = true
    · cases es with
      | nil =>
        simp only [expr_bind, if_neg h0, if_pos h1] at hb
        exact Option.noConfusion hb
      | cons a rest =>
        simp only [expr_bind, if_neg h0, if_pos h1,
          Option.some.injEq] at hb
        subst hb
        rw [AOkL_cons_iff] at h ⊢
        exact ⟨h.1, h.2⟩
    · match es, h with
      | [], _ =>
        simp only [expr_bind, if_neg h0, if_neg h1] at hb
        exact Option.noConfusion hb
      | [a], _ =>
        simp only [expr_bind, if_neg h0, if_neg h1] at hb
        exact Option.noConfusion hb
      | b :: a :: rest, h =>
        by_cases h2 : expr_op tok none = .ASSIGN ∧ ¬ (isVarE a = true)
        · simp only [expr_bind, if_neg h0, if_neg h1, if_pos h2] at hb
          exact Option.noConfusion hb
        · simp only [expr_bind, if_neg h0, if_neg h1, if_neg h2,
            Option.some.injEq] at hb
          subst hb
          rw [AOkL_cons_iff] at h ⊢
          rw [AOkL_cons_iff] at h
          have hbv := h.1
          have hav := h.2.1
          have hrest := h.2.2
          refine ⟨?_, hrest⟩
          rw [AOk_op2_iff]
          refine ⟨?_, hav, hbv⟩
          intro ht
          by_contra hv
          exact h2 ⟨ht, hv⟩

theorem macroBodyChain_AOk : ∀ l : List Expr, AOkL l = true →
    AOk (macroBodyChain l) = true
  | [], _ => rfl
  | [b], h => by
    rw [AOkL_cons_iff] at h
    simpa [macroBodyChain] using h.1
  | b :: c :: rest, h => by
    rw [AOkL_cons_iff] at h
    have hrec := macroBodyChain_AOk (c :: rest) h.2
    rw [show macroBodyChain (b :: c :: rest)
        = .op2 .COMMA b (macroBodyChain (c :: rest)) from rfl, AOk_op2_iff]
    exact ⟨by intro hx; exact absurd hx (by decide), h.1, hrec⟩

theorem macroParamChain_AOk : ∀ (j : Nat) (args : List Expr) (tail : Expr),
    AOkL args = true → AOk tail = true →
    AOk (macroParamChain j args tail) = true
  | _, [], tail, _, ht => ht
  | j, a :: rest, tail, h, ht => by
    rw [AOkL_cons_iff] at h
    have hrec := macroParamChain_AOk (j + 1) rest tail h.2 ht
    rw [show macroParamChain j (a :: rest) tail
        = .op2 .COMMA (.op2 .ASSIGN (.var (paramName j)) a)
            (macroParamChain (j + 1) rest tail) from rfl, AOk_op2_iff]
    refine ⟨by intro hx; exact absurd hx (by decide), ?_, hrec⟩
    rw [AOk_op2_iff]
    exact ⟨fun _ => rfl, rfl, h.1⟩

theorem popBindGo_AOk (minlen : Nat) : ∀ (os : List (List Char))
    (es : List Expr) (os' : List (List Char)) (es' : List Expr),
    AOkL es = true → popBindGo minlen os es = some (os', es') →
    AOkL es' = true
  | [], es, os', es', h, hp => by
    simp only [popBindGo, Option.some.injEq, Prod.mk.injEq] at hp
    rw [← hp.2]
    exact h
  | str :: os1, es, os', es', h, hp => by
    by_cases hc : ((str :: os1).length > minlen ∧ getc str 0 ≠ '('
        ∧ getc str 0 ≠ LBR)
    · rw [popBindGo, if_pos hc] at hp
      cases hb : expr_bind str es with
      | none =>
        rw [hb] at hp
        exact Option.noConfusion hp
      | some es1 =>
        rw [hb] at hp
        exact popBindGo_AOk minlen os1 es1 os' es' (expr_bind_AOk h hb) hp
    · rw [popBindGo, if_neg hc] at hp
      simp only [Option.some.injEq, Prod.mk.injEq] at hp
      rw [← hp.2]
      exact h

theorem AOkL_drop_one {l : List Expr} (h : AOkL l = true) :
    AOkL (l.drop 1) = true := by
  cases l with
  | nil => exact h
  | cons e rest => exact (AOkL_cons_iff.mp h).2

theorem shuntLoop_AOk (tok : List Char) (op : EType) :
    ∀ (os : List (List Char)) (es : List Expr) (frames : List Frame)
      (os' : List (List Char)) (es' : List Expr) (frames' : List Frame),
    AOkL es = true → (∀ fr ∈ frames, AOkL fr.args = true) →
    shuntLoop tok op os es frames = some (os', es', frames') →
    AOkL es' = true ∧ (∀ fr ∈ frames', AOkL fr.args = true)
  | [], es, frames, os', es', frames', he, hf, hs => by
    rw [shuntLoop.eq_def] at hs
    simp only [Option.some.injEq, Prod.mk.injEq] at hs
    obtain ⟨-, h2, h3⟩ := hs
    rw [← h2, ← h3]
    exact ⟨he, hf⟩
  | s :: os1, es, frames, os', es', frames', he, hf, hs => by
    rw [shuntLoop.eq_def] at hs
    simp only at hs
    by_cases hc : (tok = [','] ∧ s = [LBR])
    · rw [if_pos hc] at hs
      cases es with
      | nil =>
        cases frames with
        | nil => exact Option.noConfusion hs
        | cons fr frs => exact Option.noConfusion hs
      | cons e es1 =>
        cases frames with
        | nil => exact Option.noConfusion hs
        | cons fr frs =>
          simp only [Option.some.injEq, Prod.mk.injEq] at hs
          obtain ⟨-, h2, h3⟩ := hs
          rw [← h2, ← h3]
          rw [AOkL_cons_iff] at he
          refine ⟨he.2, ?_⟩
          intro fr2 hfr2
          rcases List.mem_cons.mp hfr2 with rfl | hfr2
          · show AOkL (fr.args ++ [e]) = true
            rw [AOkL_append_iff]
            exact ⟨hf fr (List.mem_cons_self fr frs),
              AOkL_cons_iff.mpr ⟨he.1, rfl⟩⟩
          · exact hf fr2 (List.mem_cons_of_mem _ hfr2)
    · rw [if_neg hc] at hs
      by_cases hp : ¬ (expr_op s none ≠ .UNKNOWN
          ∧ expr_prec op (expr_op s none) = true)
      · rw [if_pos hp] at hs
        simp only [Option.some.injEq, Prod.mk.injEq] at hs
        obtain ⟨-, h2, h3⟩ := hs
        rw [← h2, ← h3]
        exact ⟨he, hf⟩
      · rw [if_neg hp] at hs
        cases hb : expr_bind s es with
        | none =>
          rw [hb] at hs
          exact Option.noConfusion hs
        | some es1 =>
          rw [hb] at hs
          exact shuntLoop_AOk tok op os1 es1 frames os' es' frames'
            (expr_bind_AOk he hb) hf hs

example (cx : Ctx) : parseEval cx [] "(2+3)*4"
    = some (.ok (.num (.rat 20)), [], []) := by
  with_unfolding_all rfl
example (cx : Ctx) : parseEval cx [] "$(SQR, $1*$1), SQR(5)"
    = some (.ok (.num (.rat 25)), [("$1", Flt.rat 5)], []) := by
  with_unfolding_all rfl

theorem movedArgs_AOk (fr : Frame) (es1 : List Expr)
    (ha : AOkL fr.args = true) (he : AOkL es1 = true) :
    AOkL (movedArgs fr es1).1 = true ∧ AOkL (movedArgs fr es1).2 = true := by
  rw [movedArgs.eq_def]
  by_cases hl : es1.length > fr.eslen
  · rw [if_pos hl]
    cases es1 with
    | nil => exact ⟨ha, he⟩
    | cons e es2 =>
      rw [AOkL_cons_iff] at he
      constructor
      · show AOkL (fr.args ++ [e]) = true
        rw [AOkL_append_iff]
        exact ⟨ha, AOkL_cons_iff.mpr ⟨he.1, rfl⟩⟩
      · exact he.2
  · rw [if_neg hl]
    exact ⟨ha, he⟩

theorem closeCall_AOk (funcs : List (List Char)) (name : List Char)
    (os3 : List (List Char)) (frs : List Frame)
    (macros0 : List (String × List Expr)) (args es2 : List Expr)
    (es' : List Expr) (os' : List (List Char)) (frs' : List Frame)
    (mac' : List (String × List Expr))
    (ha : AOkL args = true) (he : AOkL es2 = true)
    (hf : ∀ fr ∈ frs, AOkL fr.args = true)
    (hmac : ∀ m ∈ macros0, AOkL m.2 = true)
    (hc : closeCall funcs name os3 frs macros0 args es2
        = some (es', os', frs', mac')) :
    AOkL es' = true ∧ (∀ fr ∈ frs', AOkL fr.args = true)
      ∧ (∀ m ∈ mac', AOkL m.2 = true) := by
  rw [closeCall.eq_def] at hc
  by_cases hd : name = ['$']
  · rw [if_pos hd] at hc
    cases args with
    | nil => exact Option.noConfusion hc
    | cons u rest =>
      cases u with
      | var vname =>
        simp only [Option.some.injEq, Prod.mk.injEq] at hc
        obtain ⟨h1, -, h3, h4⟩ := hc
        rw [← h1, ← h3, ← h4]
        refine ⟨AOkL_cons_iff.mpr ⟨rfl, he⟩, hf, ?_⟩
        intro m hmem
        rcases List.mem_cons.mp hmem with rfl | hmem
        · exact ha
        · exact hmac m hmem
      | num v => exact Option.noConfusion hc
      | stz s => exact Option.noConfusion hc
      | fn n as => exact Option.noConfusion hc
      | op1 t a => exact Option.noConfusion hc
      | op2 t a b => exact Option.noConfusion hc
  · rw [if_neg hd] at hc
    cases hfind : macroFind macros0 (String.mk name) with
    | some body =>
      rw [hfind] at hc
      simp only [Option.some.injEq, Prod.mk.injEq] at hc
      obtain ⟨h1, -, h3, h4⟩ := hc
      rw [← h1, ← h3, ← h4]
      have hbody : AOkL body = true := by
        simp only [macroFind, Option.map_eq_some'] at hfind
        obtain ⟨pr, hpr, hpr2⟩ := hfind
        rw [← hpr2]
        exact hmac pr (List.mem_of_find?_eq_some hpr)
      refine ⟨AOkL_cons_iff.mpr ⟨?_, he⟩, hf, hmac⟩
      exact macroParamChain_AOk 0 args _ ha
        (macroBodyChain_AOk _ (AOkL_drop_one hbody))
    | none =>
      rw [hfind] at hc
      by_cases hcf : funcs.contains name = true
      · rw [if_pos hcf] at hc
        simp only [Option.some.injEq, Prod.mk.injEq] at hc
        obtain ⟨h1, -, h3, h4⟩ := hc
        rw [← h1, ← h3, ← h4]
        exact ⟨AOkL_cons_iff.mpr ⟨ha, he⟩, hf, hmac⟩
      · rw [if_neg hcf] at hc
        exact Option.noConfusion hc

theorem closeParen_AOk (funcs : List (List Char)) (es0 : List Expr)
    (os0 : List (List Char)) (frames0 : List Frame)
    (macros0 : List (String × List Expr)) (es2 : List Expr)
    (os2 : List (List Char)) (frs2 : List Frame)
    (mac2 : List (String × List Expr))
    (he : AOkL es0 = true) (hf : ∀ fr ∈ frames0, AOkL fr.args = true)
    (hmac : ∀ m ∈ macros0, AOkL m.2 = true)
    (hc : closeParen funcs es0 os0 frames0 macros0
        = some (es2, os2, frs2, mac2)) :
    AOkL es2 = true ∧ (∀ fr ∈ frs2, AOkL fr.args = true)
      ∧ (∀ m ∈ mac2, AOkL m.2 = true) := by
  rw [closeParen] at hc
  cases hpb : popBindGo (frameMinlen frames0) os0 es0 with
  | none =>
    rw [hpb] at hc
    exact Option.noConfusion hc
  | some pr =>
    obtain ⟨os1, es1⟩ := pr
    rw [hpb] at hc
    simp only at hc
    have he1 : AOkL es1 = true := popBindGo_AOk _ os0 es0 os1 es1 he hpb
    cases os1 with
    | nil => exact Option.noConfusion hc
    | cons str osr =>
      simp only at hc
      by_cases hlb : str = [LBR]
      · rw [if_pos hlb] at hc
        cases osr with
        | nil =>
          cases frames0 with
          | nil => exact Option.noConfusion hc
          | cons fr frs => exact Option.noConfusion hc
        | cons name os3 =>
          cases frames0 with
          | nil => exact Option.noConfusion hc
          | cons fr frs =>
            simp only at hc
            have hm := movedArgs_AOk fr es1
              (hf fr (List.mem_cons_self fr frs)) he1
            exact closeCall_AOk funcs name os3 frs macros0 _ _ es2 os2
              frs2 mac2 hm.1 hm.2
              (fun fr2 hfr2 => hf fr2 (List.mem_cons_of_mem _ hfr2))
              hmac hc
      · rw [if_neg hlb] at hc
        simp only [Option.some.injEq, Prod.mk.injEq] at hc
        obtain ⟨h1, -, h3, h4⟩ := hc
        rw [← h1, ← h3, ← h4]
        exact ⟨he1, hf, hmac⟩

theorem resolveId_AOk (funcs : List (List Char)) (st : PSt)
    (tok : List Char) (n : Nat) (es1 : List Expr)
    (os1 : List (List Char)) (p1 : Paren) (he : AOkL st.es = true)
    (hr : resolveId funcs st tok n = some (es1, os1, p1)) :
    AOkL es1 = true := by
  rw [resolveId.eq_def] at hr
  cases hid : st.idtok with
  | none =>
    rw [hid] at hr
    simp only [Option.some.injEq, Prod.mk.injEq] at hr
    rw [← hr.1]
    exact he
  | some id =>
    rw [hid] at hr
    simp only at hr
    by_cases h1 : (n = 1 ∧ getc tok 0 = '(')
    · rw [if_pos h1] at hr
      by_cases h2 : ((id = ['$'])
          ∨ st.macros.any (fun m => m.1 == String.mk id) = true
          ∨ funcs.contains id = true)
      · rw [if_pos h2] at hr
        simp only [Option.some.injEq, Prod.mk.injEq] at hr
        rw [← hr.1]
        exact he
      · rw [if_neg h2] at hr
        exact Option.noConfusion hr
    · rw [if_neg h1] at hr
      simp only [Option.some.injEq, Prod.mk.injEq] at hr
      rw [← hr.1]
      exact AOkL_cons_iff.mpr ⟨rfl, he⟩

theorem stepCore_AOk (funcs : List (List Char)) (tok : List Char) (n : Nat)
    (f2 : TFlags) (st st' : PSt) (h : StOk st)
    (hs : stepCore funcs tok n f2 st = some st') : StOk st' := by
  obtain ⟨he, hf, hmac⟩ := h
  rw [stepCore.eq_def] at hs
  cases hr : resolveId funcs st tok n with
  | none =>
    rw [hr] at hs
    exact Option.noConfusion hs
  | some pr =>
    obtain ⟨es1, os1, p1⟩ := pr
    rw [hr] at hs
    simp only at hs
    have he1 : AOkL es1 = true := resolveId_AOk funcs st tok n es1 os1 p1 he hr
    by_cases h1 : (n = 1 ∧ getc tok 0 = '(')
    · rw [if_pos h1] at hs
      cases p1 with
      | expected =>
        simp only [Option.some.injEq] at hs
        rw [← hs]
        refine ⟨he1, ?_, hmac⟩
        intro fr hfr
        rcases List.mem_cons.mp hfr with rfl | hfr
        · rfl
        · exact hf fr hfr
      | allowed =>
        simp only [Option.some.injEq] at hs
        rw [← hs]
        exact ⟨he1, hf, hmac⟩
      | forbidden => exact Option.noConfusion hs
    · rw [if_neg h1] at hs
      by_cases h2 : p1 = Paren.expected
      · rw [if_pos h2] at hs
        exact Option.noConfusion hs
      · rw [if_neg h2] at hs
        by_cases h3 : (n = 1 ∧ getc tok 0 = ')')
        · rw [if_pos h3] at hs
          cases hcp : closeParen funcs es1 os1 st.frames st.macros with
          | none =>
            rw [hcp] at hs
            exact Option.noConfusion hs
          | some q =>
            obtain ⟨es2, os2, frs2, mac2⟩ := q
            rw [hcp] at hs
            simp only [Option.some.injEq] at hs
            rw [← hs]
            have hres := closeParen_AOk funcs es1 os1 st.frames st.macros
              es2 os2 frs2 mac2 he1 hf hmac hcp
            exact ⟨hres.1, hres.2.1, hres.2.2⟩
        · rw [if_neg h3] at hs
          by_cases h4 : ¬ ((expr_parse_number tok).isNaN = true)
          · rw [if_pos h4] at hs
            simp only [Option.some.injEq] at hs
            rw [← hs]
            exact ⟨AOkL_cons_iff.mpr ⟨rfl, he1⟩, hf, hmac⟩
          · rw [if_neg h4] at hs
            by_cases h5 : (getc tok 0 = QT ∨ getc tok 0 = AP)
            · rw [if_pos h5] at hs
              simp only [Option.some.injEq] at hs
              rw [← hs]
              exact ⟨AOkL_cons_iff.mpr ⟨rfl, he1⟩, hf, hmac⟩
            · rw [if_neg h5] at hs
              by_cases h6 : expr_op tok none ≠ .UNKNOWN
              · rw [if_pos h6] at hs
                cases hsh : shuntLoop tok (expr_op tok none) os1 es1
                    st.frames with
                | none =>
                  rw [hsh] at hs
                  exact Option.noConfusion hs
                | some q =>
                  obtain ⟨os2, es2, frs2⟩ := q
                  rw [hsh] at hs
                  simp only [Option.some.injEq] at hs
                  rw [← hs]
                  have hres := shuntLoop_AOk tok (expr_op tok none) os1 es1
                    st.frames os2 es2 frs2 he1 hf hsh
                  exact ⟨hres.1, hres.2, hmac⟩
              · rw [if_neg h6] at hs
                by_cases h7 : (0 < n ∧ ¬ (isdigitC (getc tok 0) = true))
                · rw [if_pos h7] at hs
                  simp only [Option.some.injEq] at hs
                  rw [← hs]
                  exact ⟨he1, hf, hmac⟩
                · rw [if_neg h7] at hs
                  exact Option.noConfusion hs

theorem stepTok_AOk (funcs : List (List Char)) (tok0 : List Char) (n0 : Nat)
    (f1 : TFlags) (st st' : PSt) (h : StOk st)
    (hs : stepTok funcs tok0 n0 f1 st = some st') : StOk st' := by
  rw [stepTok.eq_def] at hs
  by_cases h1 : getc tok0 0 = '#'
  · rw [if_pos h1] at hs
    simp only [Option.some.injEq] at hs
    rw [← hs]
    exact h
  · rw [if_neg h1] at hs
    simp only at hs
    by_cases h2 : (f1.unary = true ∧ n0 = 1)
    · rw [if_pos h2] at hs
      by_cases h3 : getc tok0 0 = '-'
      · rw [if_pos h3] at hs
        simp only at hs
        by_cases h4 : isspaceC (getc (if (getc ['-', 'u'] 0 = NLC
            ∧ f1.comma = true) then [','] else ['-', 'u']) 0) = true
        · rw [if_pos h4] at hs
          simp only [Option.some.injEq] at hs
          rw [← hs]
          exact h
        · rw [if_neg h4] at hs
          exact stepCore_AOk funcs _ _ _ st st' h hs
      · rw [if_neg h3] at hs
        by_cases h5 : getc tok0 0 = '^'
        · rw [if_pos h5] at hs
          simp only at hs
          by_cases h6 : isspaceC (getc (if (getc ['^', 'u'] 0 = NLC
              ∧ f1.comma = true) then [','] else ['^', 'u']) 0) = true
          · rw [if_pos h6] at hs
            simp only [Option.some.injEq] at hs
            rw [← hs]
            exact h
          · rw [if_neg h6] at hs
            exact stepCore_AOk funcs _ _ _ st st' h hs
        · rw [if_neg h5] at hs
          by_cases h7 : getc tok0 0 = '!'
          · rw [if_pos h7] at hs
            simp only at hs
            by_cases h8 : isspaceC (getc (if (getc ['!', 'u'] 0 = NLC
                ∧ f1.comma = true) then [','] else ['!', 'u']) 0) = true
            · rw [if_pos h8] at hs
              simp only [Option.some.injEq] at hs
              rw [← hs]
              exact h
            · rw [if_neg h8] at hs
              exact stepCore_AOk funcs _ _ _ st st' h hs
          · rw [if_neg h7] at hs
            exact Option.noConfusion hs
    · rw [if_neg h2] at hs
      simp only at hs
      by_cases h9 : isspaceC (getc (if (getc tok0 0 = NLC
          ∧ f1.comma = true) then [','] else tok0) 0) = true
      · rw [if_pos h9] at hs
        simp only [Option.some.injEq] at hs
        rw [← hs]
        exact h
      · rw [if_neg h9] at hs
        exact stepCore_AOk funcs _ _ _ st st' h hs

theorem parseLoop_AOk (funcs : List (List Char)) :
    ∀ (fuel : Nat) (s : List Char) (st st' : PSt), StOk st →
    parseLoop funcs fuel s st = some st' → StOk st' := by
  intro fuel
  induction fuel with
  | zero =>
    intro s st st' _ hp
    exact Option.noConfusion hp
  | succ m ih =>
    intro s st st' h hp
    rw [parseLoop] at hp
    by_cases h1 : (expr_next_token s st.flags).1 = 0
    · rw [if_pos h1] at hp
      simp only [Option.some.injEq] at hp
      rw [← hp]
      exact h
    · rw [if_neg h1] at hp
      by_cases h2 : (expr_next_token s st.flags).1 < 0
      · rw [if_pos h2] at hp
        exact Option.noConfusion hp
      · rw [if_neg h2] at hp
        simp only at hp
        cases hst : stepTok funcs (s.take (expr_next_token s st.flags).1.toNat)
            (expr_next_token s st.flags).1.toNat
            (expr_next_token s st.flags).2 st with
        | none =>
          rw [hst] at hp
          exact Option.noConfusion hp
        | some st1 =>
          rw [hst] at hp
          exact ih _ st1 st' (stepTok_AOk funcs _ _ _ st st1 h hst) hp

theorem finishBind_AOk : ∀ (os : List (List Char)) (es es' : List Expr),
    AOkL es = true → finishBind os es = some es' → AOkL es' = true
  | [], es, es', h, hp => by
    simp only [finishBind, Option.some.injEq] at hp
    rw [← hp]
    exact h
  | rest :: os1, es, es', h, hp => by
    rw [finishBind] at hp
    by_cases h1 : (rest.length = 1 ∧ (getc rest 0 = '(' ∨ getc rest 0 = ')'))
    · rw [if_pos h1] at hp
      exact Option.noConfusion hp
    · rw [if_neg h1] at hp
      cases hb : expr_bind rest es with
      | none =>
        rw [hb] at hp
        exact Option.noConfusion hp
      | some es1 =>
        rw [hb] at hp
        exact finishBind_AOk os1 es1 es' (expr_bind_AOk h hb) hp

theorem expr_create_AOk (funcs : List (List Char)) (s : List Char)
    (e : Expr) (h : expr_create funcs s = some e) : AOk e = true := by
  rw [expr_create] at h
  cases hp : parseLoop funcs (s.length + 1) s initPSt with
  | none =>
    rw [hp] at h
    exact Option.noConfusion h
  | some st =>
    rw [hp] at h
    simp only at h
    have hok : StOk st := parseLoop_AOk funcs _ s initPSt st
      ⟨rfl, fun fr hfr => absurd hfr (List.not_mem_nil fr),
        fun m hm => absurd hm (List.not_mem_nil m)⟩ hp
    have hes1 : AOkL (match st.idtok with
        | some id => Expr.var (String.mk id) :: st.es
        | none => st.es) = true := by
      cases st.idtok with
      | none => exact hok.1
      | some id => exact AOkL_cons_iff.mpr ⟨rfl, hok.1⟩
    cases hfb : finishBind st.os (match st.idtok with
        | some id => Expr.var (String.mk id) :: st.es
        | none => st.es) with
    | none =>
      rw [hfb] at h
      exact Option.noConfusion h
    | some es2 =>
      rw [hfb] at h
      have hes2 : AOkL es2 = true := finishBind_AOk _ _ es2 hes1 hfb
      cases es2 with
      | nil =>
        simp only [Option.some.injEq] at h
        rw [← h]
        rfl
      | cons e0 esr =>
        simp only [Option.some.injEq] at h
        rw [← h]
        exact (AOkL_cons_iff.mp hes2).1

/-- C9: in every AST returned by a successful parse, each `ASSIGN`
operator node's first child is a `VAR` node (the invariant `AOk`);
binding an `=` whose left operand is not a variable fails (`expr_bind`
returns `none`, modelling the C `-1`), and parsing such an input fails
(`expr_create [] "1=2" = none`). -/
theorem C9_assign_invariant :
    (∀ (funcs : List (List Char)) (s : List Char) (e : Expr),
      expr_create funcs s = some e → AOk e = true)
    ∧ (∀ (b a : Expr) (rest : List Expr), isVarE a = false →
      expr_bind ['='] (b :: a :: rest) = none)
    ∧ expr_create [] "1=2".toList = none := by
  refine ⟨fun funcs s e h => expr_create_AOk funcs s e h, ?_, ?_⟩
  · intro b a rest ha
    have hop : expr_op ['='] none = EType.ASSIGN := by
      with_unfolding_all rfl
    simp only [expr_bind, hop]
    rw [if_neg (by simp : ¬ (EType.ASSIGN = EType.UNKNOWN))]
    rw [if_neg (by simp [expr_is_unary] :
      ¬ (expr_is_unary EType.ASSIGN = true))]
    rw [if_pos ⟨trivial, by simp [ha]⟩]
  · with_unfolding_all rfl

theorem C9_witness :
    expr_create [] "a=3".toList
      = some (Expr.op2 EType.ASSIGN (Expr.var "a")
          (Expr.num (expr_parse_number ['3'])))
    ∧ AOk (Expr.op2 EType.ASSIGN (Expr.var "a")
          (Expr.num (expr_parse_number ['3']))) = true
    ∧ isVarE (Expr.num (Flt.rat 1)) = false
    ∧ expr_bind ['=']
        [Expr.num (Flt.rat 2), Expr.num (Flt.rat 1)] = none := by
  have hc : expr_create [] "a=3".toList
      = some (Expr.op2 EType.ASSIGN (Expr.var "a")
          (Expr.num (expr_parse_number ['3']))) := by
    with_unfolding_all rfl
  exact ⟨hc, C9_assign_invariant.1 [] _ _ hc, rfl,
    C9_assign_invariant.2.1 (Expr.num (Flt.rat 2)) (Expr.num (Flt.rat 1))
      [] rfl⟩
